import Mathlib

/-!
# vPICdisasm: the command-line front end (`ui.c`)

A shallow embedding of `main` from `ui.c`: the option loop around `getopt_long`, the
assembly of the formatting options, file-type auto-recognition by extension, architecture
selection, selection of the disassembly routine, and the final open/disassemble/close.

Memory objects are lists of bytes in which a byte may be indeterminate; the libc string
routines return `none` when they would read an indeterminate byte or leave the object
(undefined behaviour in C).  The text of the diagnostics is not modelled, only which
message is written to which stream; a diagnostic that prints a buffer with `%s` reads
that buffer as a string, and this read is modelled.
-/

namespace VPicDisasm

/-! ## Memory objects and the libc string routines used by `ui.c` -/

/-- A memory object: a list of bytes, where `none` is an indeterminate (never written) byte. -/
abbrev Mem := List (Option Nat)

/-- The object holding the NUL-terminated C string whose characters are `s`. -/
def cstr (s : List Nat) : Mem := s.map some ++ [some 0]

/-- The characters of a C string literal. -/
def lit (s : String) : List Nat := s.data.map Char.toNat

/-- `tolower` in the "C" locale (ui.c never calls `setlocale`). -/
def tolower (c : Nat) : Nat := if 65 ≤ c ∧ c ≤ 90 then c + 32 else c

/-- `strcasecmp(s1, s2)`: walks both objects, comparing lower-cased bytes, until they differ
or a NUL has been compared.  `none` when a byte outside an object (or an indeterminate
byte) would be read. -/
def strcasecmp : Mem → Mem → Option Int
  | some a :: s1, some b :: s2 =>
    if tolower a ≠ tolower b then some ((tolower a : Int) - (tolower b : Int))
    else if a = 0 then some 0
    else strcasecmp s1 s2
  | _, _ => none

/-- The `n` bytes that `strncpy(dest, src, n)` writes: the bytes of `src` up to its NUL,
then NUL padding; no NUL is written when `src` has `n` or more characters. -/
def strncpyBytes : Mem → Nat → Option Mem
  | _, 0 => some []
  | some c :: s, n + 1 =>
    if c = 0 then some (List.replicate (n + 1) (some 0))
    else (strncpyBytes s n).map (fun bs => some c :: bs)
  | _, _ + 1 => none

/-- The object `dest` after `strncpy(dest, src, n)`; `none` when `n` exceeds the size of
`dest` or `src` is not readable. -/
def strncpy (dest src : Mem) (n : Nat) : Option Mem :=
  if n ≤ dest.length then (strncpyBytes src n).map (fun bs => bs ++ dest.drop n) else none

/-- The bytes that `strcpy` copies: the characters of `src` and its NUL. -/
def strcpyBytes : Mem → Option Mem
  | some c :: s => if c = 0 then some [some 0] else (strcpyBytes s).map (fun bs => some c :: bs)
  | _ => none

/-- The object `dest` after `strcpy(dest, src)`; `none` when the string does not fit. -/
def strcpy (dest src : Mem) : Option Mem :=
  match strcpyBytes src with
  | none => none
  | some bs => if bs.length ≤ dest.length then some (bs ++ dest.drop bs.length) else none

/-- `rindex(s, c)`: the outer `Option` is `none` when the string is not readable; the inner
one is the returned pointer, `none` for `NULL`, otherwise the part of the object that starts
at the last occurrence of `c`. -/
def rindex : Mem → Nat → Option (Option Mem)
  | some a :: s, c =>
    if a = 0 then some (if c = 0 then some (some a :: s) else none)
    else
      match rindex s c with
      | none => none
      | some (some p) => some (some p)
      | some none => some (if a = c then some (some a :: s) else none)
  | _, _ => none

/-- The characters that `fprintf` reads for a `%s` argument `s`: the bytes of `s` up to
its NUL.  `none` when a byte outside the object (or an indeterminate byte) would be
read. -/
def readString : Mem → Option (List Nat)
  | some c :: s => if c = 0 then some [] else (readString s).map (fun cs => c :: cs)
  | _ => none

/-! ## Declarations of `file.h` and `errorcodes.h` used by `ui.c` -/

/-- The constants that `file.h` defines and ui.c uses, and the size of the
`addressLabelPrefix` field of `formattingOptions`.  Their values are parameters of the
model: nothing in ui.c depends on them. -/
structure Consts where
  FORMAT_OPTION_ADDRESS_LABEL : Nat
  FORMAT_OPTION_ADDRESS : Nat
  FORMAT_OPTION_DESTINATION_ADDRESS_COMMENT : Nat
  FORMAT_OPTION_LITERAL_HEX : Nat
  FORMAT_OPTION_LITERAL_BIN : Nat
  FORMAT_OPTION_LITERAL_DEC : Nat
  FORMAT_OPTION_LITERAL_ASCII_COMMENT : Nat
  PIC_BASELINE : Int
  PIC_MIDRANGE : Int
  PIC_MIDRANGE_ENHANCED : Int
  sizeofAddressLabelPrefix : Nat
  deriving DecidableEq, Repr

/-- The three fields of `formattingOptions` that ui.c touches. -/
structure formattingOptions where
  options : Nat
  addressFieldWidth : Nat
  addressLabelPrefix : Mem
  deriving DecidableEq, Repr

/-- The two disassembly routines `disassembleFile` can point to. -/
inductive DisassembleFile
  | disassembleIHexFile
  | disassembleSRecordFile
  deriving DecidableEq, Repr

def EXIT_SUCCESS : Nat := 0

def EXIT_FAILURE : Nat := 1

/-! ## Observable behaviour -/

inductive Stream
  | stdout
  | stderr
  deriving DecidableEq, Repr

/-- One constructor per output statement of ui.c. -/
inductive Message
  | usage                  -- printUsage
  | version                -- printVersion
  | noProgramFile          -- "Error: No program file specified!"
  | cannotAutoRecognize    -- "Unable to auto-recognize file type by extension."
  | pleaseSpecifyFileType  -- "Please specify file type with -t,--file-type option."
  | unknownArchitecture    -- "Unknown 8-bit PIC architecture %s."
  | seeHelpArchitectures   -- "See program help/usage for supported PIC architectures."
  | unknownFileType        -- "Unknown file type %s."
  | seeHelpFileTypes       -- "See program help/usage for supported file types."
  | cannotOpen             -- perror("Error: Cannot open program file for disassembly")
  deriving DecidableEq, Repr

inductive Event
  | write (s : Stream) (m : Message)
  | fopen (path : List Nat)
  | disassemble (f : DisassembleFile) (fOptions : formattingOptions) (archSelect : Int)
  | fclose
  deriving DecidableEq, Repr

/-- How a run of `main` ends: with undefined behaviour in a string routine or in the read
of a `%s` argument, or by `exit` after the listed events. -/
inductive Outcome
  | undefined
  | exit (events : List Event) (status : Nat)
  deriving DecidableEq, Repr

/-! ## The option table and `getopt_long` -/

/-- The static flag variables of ui.c that `long_options` points to. -/
inductive FlagVar
  | no_addresses
  | literal_base
  | literal_ascii_comment
  | no_destination_comments
  deriving DecidableEq, Repr

def no_argument : Nat := 0

def required_argument : Nat := 1

/-- An entry of `struct option`. -/
structure LongOption where
  name : String
  has_arg : Nat
  flag : Option FlagVar
  val : Int
  deriving DecidableEq, Repr

/-- The table `long_options` of ui.c (without the terminating all-zero entry). -/
def long_options (K : Consts) : List LongOption :=
  [ ⟨"address-label", required_argument, none, 108⟩,
    ⟨"arch", required_argument, none, 97⟩,
    ⟨"file-type", required_argument, none, 116⟩,
    ⟨"no-addresses", no_argument, some .no_addresses, 1⟩,
    ⟨"literal-bin", no_argument, some .literal_base, K.FORMAT_OPTION_LITERAL_BIN⟩,
    ⟨"literal-dec", no_argument, some .literal_base, K.FORMAT_OPTION_LITERAL_DEC⟩,
    ⟨"literal-hex", no_argument, some .literal_base, K.FORMAT_OPTION_LITERAL_HEX⟩,
    ⟨"literal-ascii", no_argument, some .literal_ascii_comment, 1⟩,
    ⟨"no-destination-comments", no_argument, some .no_destination_comments, 1⟩,
    ⟨"help", no_argument, none, 104⟩,
    ⟨"version", no_argument, none, 118⟩ ]

/-- The option characters of the optstring `"l:t:a:hv"`. -/
def optstring : List Nat := [108, 116, 97, 104, 118]

/-- What one call of `getopt_long` found on the command line: a long option (its index in
`long_options`), a short option character, or something it rejects (an unknown option, or
a missing option value).  `optarg` is the option's value; it is read only for the options
that take one. -/
inductive GetoptStep
  | long (index : Nat) (optarg : List Nat)
  | short (c : Nat) (optarg : List Nat)
  | invalid
  deriving DecidableEq, Repr

/-- The static variables of ui.c, `optarg`, and the locals of `main` that the option loop
writes. -/
structure State where
  no_addresses : Int
  literal_base : Int
  literal_ascii_comment : Int
  no_destination_comments : Int
  optarg : Mem
  fOptions : formattingOptions
  arch : Mem
  fileType : Mem
  deriving DecidableEq, Repr

/-- Store `v` in a flag variable. -/
def State.setFlag (st : State) (f : FlagVar) (v : Int) : State :=
  match f with
  | .no_addresses => { st with no_addresses := v }
  | .literal_base => { st with literal_base := v }
  | .literal_ascii_comment => { st with literal_ascii_comment := v }
  | .no_destination_comments => { st with no_destination_comments := v }

/-- One call of `getopt_long(argc, argv, "l:t:a:hv", long_options, NULL)` that does not
return -1, as its manual describes it: for a long option whose `flag` is not `NULL` it
stores `val` in `*flag` and returns 0; for another long option it returns `val`; for a
short option it returns the character; for anything it rejects it returns `'?'`. -/
def getopt_long (K : Consts) (step : GetoptStep) (st : State) : Int × State :=
  match step with
  | .long index optarg =>
    match (long_options K)[index]? with
    | none => (63, st)
    | some o =>
      match o.flag with
      | none => (o.val, { st with optarg := cstr optarg })
      | some f => (0, st.setFlag f o.val)
  | .short c optarg =>
    if c ∈ optstring then ((c : Int), { st with optarg := cstr optarg }) else (63, st)
  | .invalid => (63, st)

/-! ## `main` -/

/-- The state of `main` before the option loop (ui.c lines 34-37 and 99-107): the flag
variables are 0, `arch[0]` and `fileType[0]` are NUL and the other bytes of the two
buffers, like the label prefix, are indeterminate. -/
def initialState (K : Consts) : State :=
  { no_addresses := 0
    literal_base := 0
    literal_ascii_comment := 0
    no_destination_comments := 0
    optarg := []
    fOptions :=
      { options := 0
        addressFieldWidth := 3
        addressLabelPrefix := List.replicate K.sizeofAddressLabelPrefix none }
    arch := some 0 :: List.replicate 8 none
    fileType := some 0 :: List.replicate 7 none }

/-- The option loop of `main` (ui.c lines 108-136); the list holds what the successive
calls of `getopt_long` find before it returns -1. -/
def parseOptions (K : Consts) : List GetoptStep → State → Except Outcome State
  | [], st => .ok st
  | step :: steps, st =>
    let optc := (getopt_long K step st).1
    let st1 := (getopt_long K step st).2
    if optc = 0 then parseOptions K steps st1
    else if optc = 108 then
      match strncpy st1.fOptions.addressLabelPrefix st1.optarg K.sizeofAddressLabelPrefix with
      | none => .error .undefined
      | some p =>
        parseOptions K steps
          { st1 with
            fOptions :=
              { st1.fOptions with
                options := st1.fOptions.options ||| K.FORMAT_OPTION_ADDRESS_LABEL
                addressLabelPrefix := p } }
    else if optc = 116 then
      match strncpy st1.fileType st1.optarg 8 with
      | none => .error .undefined
      | some b => parseOptions K steps { st1 with fileType := b }
    else if optc = 97 then
      match strncpy st1.arch st1.optarg 9 with
      | none => .error .undefined
      | some b => parseOptions K steps { st1 with arch := b }
    else if optc = 104 then .error (.exit [.write .stderr .usage] EXIT_SUCCESS)
    else if optc = 118 then .error (.exit [.write .stderr .version] EXIT_SUCCESS)
    else .error (.exit [.write .stdout .usage] EXIT_SUCCESS)

/-- The value of `fOptions` after ui.c lines 138-151. -/
def assembleOptions (K : Consts) (st : State) : formattingOptions :=
  let o0 := st.fOptions.options
  let o1 := if st.no_addresses = 0 then o0 ||| K.FORMAT_OPTION_ADDRESS else o0
  let o2 :=
    if st.no_destination_comments = 0 then o1 ||| K.FORMAT_OPTION_DESTINATION_ADDRESS_COMMENT
    else o1
  let o3 :=
    if st.literal_base = K.FORMAT_OPTION_LITERAL_DEC then o2 ||| K.FORMAT_OPTION_LITERAL_DEC
    else if st.literal_base = K.FORMAT_OPTION_LITERAL_BIN then o2 ||| K.FORMAT_OPTION_LITERAL_BIN
    else o2 ||| K.FORMAT_OPTION_LITERAL_HEX
  let o4 := if st.literal_ascii_comment ≠ 0 then o3 ||| K.FORMAT_OPTION_LITERAL_ASCII_COMMENT else o3
  { st.fOptions with options := o4 }

/-- Exit after the two lines of the auto-recognition failure. -/
def autoRecognizeFailure : Outcome :=
  .exit [.write .stderr .cannotAutoRecognize, .write .stderr .pleaseSpecifyFileType] EXIT_FAILURE

/-- Map `strcpy`'s result to the next step. -/
def afterStrcpy (r : Option Mem) : Except Outcome Mem :=
  match r with
  | none => .error .undefined
  | some b => .ok b

/-- File-type auto-recognition (ui.c lines 159-184): the `fileType` buffer afterwards.
`file` is the object `argv[optind]`. -/
def autoRecognize (fileType file : Mem) : Except Outcome Mem :=
  match fileType with
  | some 0 :: _ =>
    match rindex file 46 with
    | none => .error .undefined
    | some none => .error autoRecognizeFailure
    | some (some p) =>
      let fileExtension := p.drop 1
      match strcasecmp fileExtension (cstr (lit "ihx")) with
      | none => .error .undefined
      | some r1 =>
      if r1 = 0 then afterStrcpy (strcpy fileType (cstr (lit "ihex"))) else
      match strcasecmp fileExtension (cstr (lit "hex")) with
      | none => .error .undefined
      | some r2 =>
      if r2 = 0 then afterStrcpy (strcpy fileType (cstr (lit "ihex"))) else
      match strcasecmp fileExtension (cstr (lit "ihex")) with
      | none => .error .undefined
      | some r3 =>
      if r3 = 0 then afterStrcpy (strcpy fileType (cstr (lit "ihex"))) else
      match strcasecmp fileExtension (cstr (lit "srec")) with
      | none => .error .undefined
      | some r4 =>
      if r4 = 0 then afterStrcpy (strcpy fileType (cstr (lit "srecord"))) else
      match strcasecmp fileExtension (cstr (lit "sre")) with
      | none => .error .undefined
      | some r5 =>
      if r5 = 0 then afterStrcpy (strcpy fileType (cstr (lit "srecord")))
      else .error autoRecognizeFailure
  | some _ :: _ => .ok fileType
  | _ => .error .undefined

/-- Architecture selection (ui.c lines 186-201): the value of `archSelect`.  The
diagnostic of the last branch prints `arch` with `%s`. -/
def selectArch (K : Consts) (arch : Mem) : Except Outcome Int :=
  match arch with
  | some 0 :: _ => .ok K.PIC_MIDRANGE
  | some _ :: _ =>
    match strcasecmp arch (cstr (lit "baseline")) with
    | none => .error .undefined
    | some r1 =>
    if r1 = 0 then .ok K.PIC_BASELINE else
    match strcasecmp arch (cstr (lit "midrange")) with
    | none => .error .undefined
    | some r2 =>
    if r2 = 0 then .ok K.PIC_MIDRANGE else
    match strcasecmp arch (cstr (lit "enhanced")) with
    | none => .error .undefined
    | some r3 =>
    if r3 = 0 then .ok K.PIC_MIDRANGE_ENHANCED
    else
      match readString arch with
      | none => .error .undefined
      | some _ =>
        .error (.exit [.write .stderr .unknownArchitecture, .write .stderr .seeHelpArchitectures]
          EXIT_FAILURE)
  | _ => .error .undefined

/-- Selection of the disassembly routine (ui.c lines 203-214): the value of the function
pointer `disassembleFile`.  The diagnostic of the last branch prints `fileType` with
`%s`. -/
def selectDisassembleFile (fileType : Mem) : Except Outcome DisassembleFile :=
  match strcasecmp fileType (cstr (lit "ihex")) with
  | none => .error .undefined
  | some r1 =>
  if r1 = 0 then .ok .disassembleIHexFile else
  match strcasecmp fileType (cstr (lit "srecord")) with
  | none => .error .undefined
  | some r2 =>
  if r2 = 0 then .ok .disassembleSRecordFile
  else
    match readString fileType with
    | none => .error .undefined
    | some _ =>
      .error (.exit [.write .stderr .unknownFileType, .write .stderr .seeHelpFileTypes]
        EXIT_FAILURE)

/-- A command line as `getopt_long` presents it to `main`: what its successive calls find,
and the arguments `argv[optind]`, ..., `argv[argc-1]` that remain when it returns -1. -/
structure Invocation where
  steps : List GetoptStep
  operands : List (List Nat)
  deriving DecidableEq, Repr

/-- `main` of ui.c.  `canOpen path` tells whether `fopen(path, "r")` succeeds. -/
def main (K : Consts) (canOpen : List Nat → Bool) (inv : Invocation) : Outcome :=
  match parseOptions K inv.steps (initialState K) with
  | .error o => o
  | .ok st =>
  let fOptions := assembleOptions K st
  match inv.operands with
  | [] => .exit [.write .stderr .noProgramFile, .write .stderr .usage] EXIT_FAILURE
  | file :: _ =>
  match autoRecognize st.fileType (cstr file) with
  | .error o => o
  | .ok fileType =>
  match selectArch K st.arch with
  | .error o => o
  | .ok archSelect =>
  match selectDisassembleFile fileType with
  | .error o => o
  | .ok disassembleFile =>
  if canOpen file then
    .exit [.fopen file, .disassemble disassembleFile fOptions archSelect, .fclose] EXIT_SUCCESS
  else .exit [.fopen file, .write .stderr .cannotOpen] EXIT_FAILURE

/-! ## Vocabulary for stating properties of a command line -/

/-- The `n` bytes that `strncpy` writes for a source string with the characters `tok`. -/
def padTo (tok : List Nat) : Nat → Mem
  | 0 => []
  | n + 1 =>
    match tok with
    | [] => List.replicate (n + 1) (some 0)
    | c :: cs => some c :: padTo cs n

/-- Two characters are equal, or the upper-case and lower-case form of one ASCII letter. -/
def SameLetter (a b : Nat) : Prop :=
  a = b ∨ (65 ≤ a ∧ a ≤ 90 ∧ b = a + 32) ∨ (65 ≤ b ∧ b ≤ 90 ∧ a = b + 32)

instance (a b : Nat) : Decidable (SameLetter a b) := by unfold SameLetter; infer_instance

/-- Two strings are equal ignoring letter case. -/
def EqIgnoreCase (s t : List Nat) : Prop := List.Forall₂ SameLetter s t

instance (s t : List Nat) : Decidable (EqIgnoreCase s t) := by unfold EqIgnoreCase; infer_instance

/-- The option value a step carries. -/
def GetoptStep.optarg : GetoptStep → List Nat
  | .long _ v => v
  | .short _ v => v
  | .invalid => []

/-- The value one step gives for the option with character `c`, whose long form is entry
`i` of `long_options`. -/
def GetoptStep.valueFor (c i : Nat) : GetoptStep → Option (List Nat)
  | .long j v => if j = i then some v else none
  | .short d v => if d = c then some v else none
  | .invalid => none

/-- The last value given for an option on the command line, if the option occurs. -/
def lastValue (c i : Nat) (steps : List GetoptStep) : Option (List Nat) :=
  (steps.filterMap (GetoptStep.valueFor c i)).getLast?

/-- The effective `-a`/`--arch` token. -/
def archToken (steps : List GetoptStep) : Option (List Nat) := lastValue 97 1 steps

/-- The effective `-t`/`--file-type` token. -/
def fileTypeToken (steps : List GetoptStep) : Option (List Nat) := lastValue 116 2 steps

/-- The effective `-l`/`--address-label` value. -/
def labelToken (steps : List GetoptStep) : Option (List Nat) := lastValue 108 0 steps

/-- The long option with index `i` of `long_options` occurs on the command line. -/
def longGiven (i : Nat) (steps : List GetoptStep) : Bool :=
  steps.any (fun s => match s with | .long j _ => j == i | _ => false)

inductive LiteralBase
  | Hex
  | Dec
  | Bin
  deriving DecidableEq, Repr

/-- The formatting option bit of a literal base. -/
def LiteralBase.bit (K : Consts) : LiteralBase → Nat
  | .Hex => K.FORMAT_OPTION_LITERAL_HEX
  | .Dec => K.FORMAT_OPTION_LITERAL_DEC
  | .Bin => K.FORMAT_OPTION_LITERAL_BIN

/-- The literal base a step names, if it is one of `--literal-bin`, `--literal-dec`,
`--literal-hex`. -/
def GetoptStep.literalFlag : GetoptStep → Option LiteralBase
  | .long 4 _ => some .Bin
  | .long 5 _ => some .Dec
  | .long 6 _ => some .Hex
  | _ => none

/-- The sequence of literal-base flags on the command line, in order. -/
def literalFlags (steps : List GetoptStep) : List LiteralBase :=
  steps.filterMap GetoptStep.literalFlag

def GetoptStep.isHelp : GetoptStep → Bool
  | .long 9 _ => true
  | .short 104 _ => true
  | _ => false

def GetoptStep.isVersion : GetoptStep → Bool
  | .long 10 _ => true
  | .short 118 _ => true
  | _ => false

/-- The step is an argument error: `getopt_long` returns `'?'`. -/
def GetoptStep.isRejected : GetoptStep → Bool
  | .long j _ => 11 ≤ j
  | .short c _ => c ∉ optstring
  | .invalid => true

/-- No step asks for help or the version, and none is an argument error. -/
def Proceeds (steps : List GetoptStep) : Prop :=
  ∀ s ∈ steps, s.isHelp = false ∧ s.isVersion = false ∧ s.isRejected = false

instance (steps : List GetoptStep) : Decidable (Proceeds steps) := by
  unfold Proceeds; infer_instance

/-- Option values are C strings: they hold no NUL character. -/
def NulFree (steps : List GetoptStep) : Prop := ∀ s ∈ steps, 0 ∉ s.optarg

instance (steps : List GetoptStep) : Decidable (NulFree steps) := by
  unfold NulFree; infer_instance

/-- An option bit is set in an options word (`options & x` is nonzero). -/
def isSet (options x : Nat) : Prop := options &&& x ≠ 0

instance (o x : Nat) : Decidable (isSet o x) := by unfold isSet; infer_instance

/-- The option bits of `file.h` are nonzero and no two of them overlap. -/
def Consts.WellFormed (K : Consts) : Prop :=
  List.Pairwise (fun a b => a &&& b = 0)
    [K.FORMAT_OPTION_ADDRESS_LABEL, K.FORMAT_OPTION_ADDRESS,
     K.FORMAT_OPTION_DESTINATION_ADDRESS_COMMENT, K.FORMAT_OPTION_LITERAL_HEX,
     K.FORMAT_OPTION_LITERAL_BIN, K.FORMAT_OPTION_LITERAL_DEC,
     K.FORMAT_OPTION_LITERAL_ASCII_COMMENT] ∧
  K.FORMAT_OPTION_ADDRESS_LABEL ≠ 0 ∧ K.FORMAT_OPTION_ADDRESS ≠ 0 ∧
  K.FORMAT_OPTION_DESTINATION_ADDRESS_COMMENT ≠ 0 ∧ K.FORMAT_OPTION_LITERAL_HEX ≠ 0 ∧
  K.FORMAT_OPTION_LITERAL_BIN ≠ 0 ∧ K.FORMAT_OPTION_LITERAL_DEC ≠ 0 ∧
  K.FORMAT_OPTION_LITERAL_ASCII_COMMENT ≠ 0

instance (K : Consts) : Decidable K.WellFormed := by
  unfold Consts.WellFormed; infer_instance

/-- Sample values for the constants of `file.h`. -/
def sampleConsts : Consts :=
  { FORMAT_OPTION_ADDRESS_LABEL := 1
    FORMAT_OPTION_ADDRESS := 2
    FORMAT_OPTION_DESTINATION_ADDRESS_COMMENT := 4
    FORMAT_OPTION_LITERAL_HEX := 8
    FORMAT_OPTION_LITERAL_BIN := 16
    FORMAT_OPTION_LITERAL_DEC := 32
    FORMAT_OPTION_LITERAL_ASCII_COMMENT := 64
    PIC_BASELINE := 0
    PIC_MIDRANGE := 1
    PIC_MIDRANGE_ENHANCED := 2
    sizeofAddressLabelPrefix := 8 }



/-- How the state after the option loop depends on the command line and on the state
before the loop. -/
def Summary (K : Consts) (steps : List GetoptStep) (st st1 : State) : Prop :=
  st1.arch = (match archToken steps with | none => st.arch | some t => padTo t 9) ∧
  st1.fileType = (match fileTypeToken steps with | none => st.fileType | some t => padTo t 8) ∧
  st1.no_addresses = (if longGiven 3 steps then 1 else st.no_addresses) ∧
  st1.literal_ascii_comment = (if longGiven 7 steps then 1 else st.literal_ascii_comment) ∧
  st1.no_destination_comments = (if longGiven 8 steps then 1 else st.no_destination_comments) ∧
  st1.literal_base =
    (match (literalFlags steps).getLast? with
     | none => st.literal_base
     | some b => (b.bit K : Int)) ∧
  st1.fOptions.options =
    (if (labelToken steps).isSome then st.fOptions.options ||| K.FORMAT_OPTION_ADDRESS_LABEL
     else st.fOptions.options) ∧
  st1.fOptions.addressFieldWidth = st.fOptions.addressFieldWidth ∧
  st1.fOptions.addressLabelPrefix =
    (match labelToken steps with
     | none => st.fOptions.addressLabelPrefix
     | some t => padTo t K.sizeofAddressLabelPrefix)

/-- The sizes of the three buffers the option loop writes. -/
def Sized (K : Consts) (st : State) : Prop :=
  st.arch.length = 9 ∧ st.fileType.length = 8 ∧
    st.fOptions.addressLabelPrefix.length = K.sizeofAddressLabelPrefix



/-- The substring after the last `'.'` of a path; `none` when the path has no `'.'`. -/
def extensionOf : List Nat → Option (List Nat)
  | [] => none
  | c :: cs =>
    match extensionOf cs with
    | some e => some e
    | none => if c = 46 then some cs else none

/-- The architecture a token stands for: an absent or empty token is the default. -/
def resolveArch (K : Consts) : Option (List Nat) → Option Int
  | none => some K.PIC_MIDRANGE
  | some [] => some K.PIC_MIDRANGE
  | some (c :: cs) =>
    if EqIgnoreCase (c :: cs) (lit "baseline") then some K.PIC_BASELINE
    else if EqIgnoreCase (c :: cs) (lit "midrange") then some K.PIC_MIDRANGE
    else if EqIgnoreCase (c :: cs) (lit "enhanced") then some K.PIC_MIDRANGE_ENHANCED
    else none

/-- The routine a file extension stands for. -/
def typeOfExtension (ext : List Nat) : Option DisassembleFile :=
  if EqIgnoreCase ext (lit "ihx") ∨ EqIgnoreCase ext (lit "hex") ∨ EqIgnoreCase ext (lit "ihex")
  then some .disassembleIHexFile
  else if EqIgnoreCase ext (lit "srec") ∨ EqIgnoreCase ext (lit "sre")
  then some .disassembleSRecordFile
  else none

/-- The routine inferred from the extension of a path. -/
def inferType (file : List Nat) : Option DisassembleFile :=
  match extensionOf file with
  | none => none
  | some ext => typeOfExtension ext

/-- The routine an explicit file-type token stands for. -/
def explicitType (tok : List Nat) : Option DisassembleFile :=
  if EqIgnoreCase tok (lit "ihex") then some .disassembleIHexFile
  else if EqIgnoreCase tok (lit "srecord") then some .disassembleSRecordFile
  else none

/-- The five ways a run can fail after the option loop. -/
inductive ConfigError
  | NoInputFile
  | UnrecognizedExtension
  | UnknownArchitecture
  | UnknownFileType
  | CannotOpenInput (path : List Nat)
  deriving DecidableEq, Repr

/-- The outcome of a run that fails with a given error: its diagnostics, all on the error
stream, and exit status `EXIT_FAILURE`. -/
def ConfigError.outcome : ConfigError → Outcome
  | .NoInputFile => .exit [.write .stderr .noProgramFile, .write .stderr .usage] EXIT_FAILURE
  | .UnrecognizedExtension =>
    .exit [.write .stderr .cannotAutoRecognize, .write .stderr .pleaseSpecifyFileType]
      EXIT_FAILURE
  | .UnknownArchitecture =>
    .exit [.write .stderr .unknownArchitecture, .write .stderr .seeHelpArchitectures]
      EXIT_FAILURE
  | .UnknownFileType =>
    .exit [.write .stderr .unknownFileType, .write .stderr .seeHelpFileTypes] EXIT_FAILURE
  | .CannotOpenInput path => .exit [.fopen path, .write .stderr .cannotOpen] EXIT_FAILURE

/-- A token, copied by `strncpy` into a buffer of `n` bytes, leaves room for its NUL: it
has fewer than `n` characters.  An absent token fits. -/
def Fits (n : Nat) : Option (List Nat) → Prop
  | none => True
  | some tok => tok.length < n

instance (n : Nat) (tok : Option (List Nat)) : Decidable (Fits n tok) := by
  unfold Fits; split <;> infer_instance

/-- The effective `-a` token fits the 9-byte `arch` buffer and the effective `-t` token the
8-byte `fileType` buffer. -/
def TokensFit (steps : List GetoptStep) : Prop :=
  Fits 9 (archToken steps) ∧ Fits 8 (fileTypeToken steps)

instance (steps : List GetoptStep) : Decidable (TokensFit steps) := by
  unfold TokensFit; infer_instance

/-- The outcome of a run whose `-a` token names no architecture: the diagnostics, or
undefined behaviour when the token left the `arch` buffer without a NUL. -/
def archFailure (tokA : Option (List Nat)) : Outcome :=
  if Fits 9 tokA then ConfigError.UnknownArchitecture.outcome else .undefined

/-- The outcome of a run whose `-t` token names no file type: the diagnostics, or
undefined behaviour when the token left the `fileType` buffer without a NUL. -/
def typeFailure (tokT : Option (List Nat)) : Outcome :=
  if Fits 8 tokT then ConfigError.UnknownFileType.outcome else .undefined

/-- The outcome of a run whose configuration resolved to routine `f`, options `fo` and
architecture `a`. -/
def runOutcome (canOpen : List Nat → Bool) (file : List Nat) (f : DisassembleFile)
    (fo : formattingOptions) (a : Int) : Outcome :=
  if canOpen file then .exit [.fopen file, .disassemble f fo a, .fclose] EXIT_SUCCESS
  else (ConfigError.CannotOpenInput file).outcome

/-- The run after the option loop, as a function of the effective `-a` and `-t` tokens,
the assembled options and the operands. -/
def job (K : Consts) (canOpen : List Nat → Bool) (tokA tokT : Option (List Nat))
    (fo : formattingOptions) (operands : List (List Nat)) : Outcome :=
  match operands with
  | [] => ConfigError.NoInputFile.outcome
  | file :: _ =>
    match tokT with
    | some (c :: cs) =>
      match resolveArch K tokA with
      | none => archFailure tokA
      | some a =>
        match explicitType (c :: cs) with
        | none => typeFailure tokT
        | some f => runOutcome canOpen file f fo a
    | _ =>
      match inferType file with
      | none => ConfigError.UnrecognizedExtension.outcome
      | some f =>
        match resolveArch K tokA with
        | none => archFailure tokA
        | some a => runOutcome canOpen file f fo a

/-- The effective `-a` token is not empty and names no supported architecture. -/
def UnknownArch (steps : List GetoptStep) : Prop :=
  match archToken steps with
  | none => False
  | some tok =>
    tok ≠ [] ∧ ¬ EqIgnoreCase tok (lit "baseline") ∧ ¬ EqIgnoreCase tok (lit "midrange") ∧
      ¬ EqIgnoreCase tok (lit "enhanced")

instance (steps : List GetoptStep) : Decidable (UnknownArch steps) := by
  unfold UnknownArch; split <;> infer_instance

/-- The effective `-t` token is not empty and names no supported file type. -/
def UnknownType (steps : List GetoptStep) : Prop :=
  match fileTypeToken steps with
  | none => False
  | some tok =>
    tok ≠ [] ∧ ¬ EqIgnoreCase tok (lit "ihex") ∧ ¬ EqIgnoreCase tok (lit "srecord")

instance (steps : List GetoptStep) : Decidable (UnknownType steps) := by
  unfold UnknownType; split <;> infer_instance

/-- No `-t` option was given, or the effective `-t` token is empty. -/
def NoTypeToken (steps : List GetoptStep) : Prop :=
  fileTypeToken steps = none ∨ fileTypeToken steps = some []

instance (steps : List GetoptStep) : Decidable (NoTypeToken steps) := by
  unfold NoTypeToken; infer_instance

/-- The path has a `'.'` and the part after the last one is `hex`, `ihex`, `ihx`, `srec` or
`sre`, ignoring letter case. -/
def RecognisedExtension (file : List Nat) : Prop :=
  match extensionOf file with
  | none => False
  | some ext =>
    EqIgnoreCase ext (lit "hex") ∨ EqIgnoreCase ext (lit "ihex") ∨
      EqIgnoreCase ext (lit "ihx") ∨ EqIgnoreCase ext (lit "srec") ∨
      EqIgnoreCase ext (lit "sre")

instance (file : List Nat) : Decidable (RecognisedExtension file) := by
  unfold RecognisedExtension; split <;> infer_instance

/-! ## Auxiliary lemmas -/

theorem cstr_nil : cstr [] = [some 0] := rfl

theorem cstr_cons (c : Nat) (cs : List Nat) : cstr (c :: cs) = some c :: cstr cs := rfl

theorem tolower_ne_zero {c : Nat} (h : c ≠ 0) : tolower c ≠ 0 := by
  unfold tolower; split <;> omega

theorem tolower_zero : tolower 0 = 0 := by decide

theorem strncpyBytes_cstr (tok : List Nat) (h0 : 0 ∉ tok) (extra : Mem) (n : Nat) :
    strncpyBytes (cstr tok ++ extra) n = some (padTo tok n) := by
  induction n generalizing tok with
  | zero => simp [strncpyBytes, padTo]
  | succ n ih =>
    cases tok with
    | nil => simp [cstr_nil, strncpyBytes, padTo]
    | cons c cs =>
      have hc : c ≠ 0 := by intro h; apply h0; simp [h]
      have hcs : 0 ∉ cs := by intro h; apply h0; simp [h]
      rw [cstr_cons, List.cons_append]
      simp only [strncpyBytes, if_neg hc]
      rw [ih cs hcs]
      simp [padTo]

theorem padTo_length (tok : List Nat) (n : Nat) : (padTo tok n).length = n := by
  induction n generalizing tok with
  | zero => simp [padTo]
  | succ n ih => cases tok <;> simp [padTo, ih]

theorem strcasecmp_cstr (s t : List Nat) (hs : 0 ∉ s) (ht : 0 ∉ t) (extra : Mem) :
    ∃ r, strcasecmp (cstr s ++ extra) (cstr t) = some r ∧
      (r = 0 ↔ s.map tolower = t.map tolower) := by
  induction s generalizing t with
  | nil =>
    cases t with
    | nil => exact ⟨0, by simp [cstr_nil, cstr_cons, strcasecmp]⟩
    | cons b bs =>
      have hb : b ≠ 0 := by intro h; apply ht; simp [h]
      have := tolower_ne_zero hb
      refine ⟨(tolower 0 : Int) - tolower b, ?_, ?_⟩
      · simp [cstr_nil, cstr_cons, strcasecmp, tolower_zero]; omega
      · simp [tolower_zero]; omega
  | cons a as ih =>
    have ha : a ≠ 0 := by intro h; apply hs; simp [h]
    have has : 0 ∉ as := by intro h; apply hs; simp [h]
    have hta := tolower_ne_zero ha
    cases t with
    | nil =>
      refine ⟨(tolower a : Int) - tolower 0, ?_, ?_⟩
      · simp [cstr_nil, cstr_cons, strcasecmp, tolower_zero]; omega
      · simp [tolower_zero]; omega
    | cons b bs =>
      have hbs : 0 ∉ bs := by intro h; apply ht; simp [h]
      by_cases hab : tolower a = tolower b
      · obtain ⟨r, hr, hiff⟩ := ih bs has hbs
        refine ⟨r, ?_, ?_⟩
        · rw [cstr_cons, cstr_cons, List.cons_append]
          simp only [strcasecmp, hab, ha, ne_eq, not_true_eq_false, if_false]
          exact hr
        · simp [hab, hiff]
      · refine ⟨(tolower a : Int) - tolower b, ?_, ?_⟩
        · simp [cstr_nil, cstr_cons, strcasecmp, hab]
        · simp [hab]; omega

theorem strcasecmp_padTo (n : Nat) (tok t : List Nat) (hs : 0 ∉ tok) (ht : 0 ∉ t)
    (hlen : t.length < n) (rest : Mem) :
    ∃ r, strcasecmp (padTo tok n ++ rest) (cstr t) = some r ∧
      (r = 0 ↔ tok.map tolower = t.map tolower) := by
  induction n generalizing tok t with
  | zero => simp at hlen
  | succ n ih =>
    cases tok with
    | nil =>
      cases t with
      | nil => exact ⟨0, by simp [cstr_nil, cstr_cons, strcasecmp, padTo, List.replicate_succ]⟩
      | cons b bs =>
        have hb : b ≠ 0 := by intro h; apply ht; simp [h]
        have := tolower_ne_zero hb
        refine ⟨(tolower 0 : Int) - tolower b, ?_, ?_⟩
        · simp [cstr_nil, cstr_cons, strcasecmp, tolower_zero, padTo, List.replicate_succ]; omega
        · simp [tolower_zero]; omega
    | cons a as =>
      have ha : a ≠ 0 := by intro h; apply hs; simp [h]
      have has : 0 ∉ as := by intro h; apply hs; simp [h]
      have hta := tolower_ne_zero ha
      cases t with
      | nil =>
        refine ⟨(tolower a : Int) - tolower 0, ?_, ?_⟩
        · simp [cstr_nil, cstr_cons, strcasecmp, tolower_zero, padTo]; omega
        · simp [tolower_zero]; omega
      | cons b bs =>
        have hbs : 0 ∉ bs := by intro h; apply ht; simp [h]
        have hl : bs.length < n := by simpa using hlen
        by_cases hab : tolower a = tolower b
        · obtain ⟨r, hr, hiff⟩ := ih as bs has hbs hl
          refine ⟨r, ?_, ?_⟩
          · simp only [cstr] at hr
            simp [cstr_nil, cstr_cons, strcasecmp, hab, ha, hr, padTo]
          · simp [hab, hiff]
        · refine ⟨(tolower a : Int) - tolower b, ?_, ?_⟩
          · simp [cstr_nil, cstr_cons, strcasecmp, hab, padTo]
          · simp [hab]; omega

theorem parseOptions_cons (K : Consts) (s : GetoptStep) (ss : List GetoptStep) (st : State) :
    parseOptions K (s :: ss) st =
      match parseOptions K [s] st with
      | .error o => .error o
      | .ok st1 => parseOptions K ss st1 := by
  simp only [parseOptions]
  split_ifs <;> first | rfl | (split <;> rfl)

theorem proceeds_cases {s : GetoptStep}
    (h : s.isHelp = false ∧ s.isVersion = false ∧ s.isRejected = false) :
    (∃ j v, s = .long j v ∧ j < 9) ∨ (∃ v, s = .short 108 v) ∨ (∃ v, s = .short 116 v) ∨
      (∃ v, s = .short 97 v) := by
  obtain ⟨h1, h2, h3⟩ := h
  cases s with
  | invalid => simp [GetoptStep.isRejected] at h3
  | long j v =>
    left
    refine ⟨j, v, rfl, ?_⟩
    simp only [GetoptStep.isRejected, decide_eq_false_iff_not, not_le] at h3
    have : j ≠ 9 := by rintro rfl; simp [GetoptStep.isHelp] at h1
    have : j ≠ 10 := by rintro rfl; simp [GetoptStep.isVersion] at h2
    omega
  | short c v =>
    right
    simp only [GetoptStep.isRejected, optstring, decide_eq_false_iff_not, not_not,
      List.mem_cons, List.mem_singleton, List.not_mem_nil, or_false] at h3
    rcases h3 with rfl | rfl | rfl | rfl | rfl
    · left; exact ⟨v, rfl⟩
    · right; left; exact ⟨v, rfl⟩
    · right; right; exact ⟨v, rfl⟩
    · simp [GetoptStep.isHelp] at h1
    · simp [GetoptStep.isVersion] at h2

theorem getLast?_filterMap_cons {α β : Type} (f : α → Option β) (a : α) (l : List α) :
    ((a :: l).filterMap f).getLast? = ((l.filterMap f).getLast?).or (f a) := by
  cases hfa : f a with
  | none =>
    rw [List.filterMap_cons_none hfa]
    cases (l.filterMap f).getLast? <;> rfl
  | some b =>
    rw [List.filterMap_cons_some hfa]
    cases hl : l.filterMap f with
    | nil => simp
    | cons x xs =>
      rw [List.getLast?_cons_cons]
      cases h : (x :: xs).getLast? with
      | none => simp at h
      | some y => rfl

theorem lastValue_cons (c i : Nat) (s : GetoptStep) (ss : List GetoptStep) :
    lastValue c i (s :: ss) = (lastValue c i ss).or (s.valueFor c i) := by
  unfold lastValue; exact getLast?_filterMap_cons _ _ _

theorem lastValue_nil (c i : Nat) : lastValue c i [] = none := rfl

theorem strncpy_cstr (dest : Mem) (tok : List Nat) (h0 : 0 ∉ tok) (n : Nat)
    (hn : dest.length = n) : strncpy dest (cstr tok) n = some (padTo tok n) := by
  have h := strncpyBytes_cstr tok h0 [] n
  rw [List.append_nil] at h
  simp [strncpy, hn, h]

theorem Summary.refl (K : Consts) (st : State) : Summary K [] st st := by
  simp [Summary, archToken, fileTypeToken, labelToken, lastValue, longGiven, literalFlags]

theorem step_ok (K : Consts) (s : GetoptStep) (st : State)
    (hp : s.isHelp = false ∧ s.isVersion = false ∧ s.isRejected = false)
    (h0 : 0 ∉ s.optarg) (hs : Sized K st) :
    ∃ st1, parseOptions K [s] st = .ok st1 ∧ Sized K st1 ∧ Summary K [s] st st1 := by
  obtain ⟨hA, hF, hP⟩ := hs
  rcases proceeds_cases hp with ⟨j, v, rfl, hj⟩ | ⟨v, rfl⟩ | ⟨v, rfl⟩ | ⟨v, rfl⟩
  · simp only [GetoptStep.optarg] at h0
    have hj' : j = 0 ∨ j = 1 ∨ j = 2 ∨ j = 3 ∨ j = 4 ∨ j = 5 ∨ j = 6 ∨ j = 7 ∨ j = 8 := by omega
    rcases hj' with rfl | rfl | rfl | rfl | rfl | rfl | rfl | rfl | rfl <;>
      simp [parseOptions, getopt_long, long_options, State.setFlag, strncpy_cstr, h0, hA, hF, hP,
        Sized, Summary, archToken, fileTypeToken, labelToken, lastValue, longGiven, literalFlags,
        GetoptStep.valueFor, GetoptStep.literalFlag, padTo_length, LiteralBase.bit]
  all_goals
    simp only [GetoptStep.optarg] at h0
    simp [parseOptions, getopt_long, optstring, strncpy_cstr, h0, hA, hF, hP,
        Sized, Summary, archToken, fileTypeToken, labelToken, lastValue, longGiven, literalFlags,
        GetoptStep.valueFor, GetoptStep.literalFlag, padTo_length]

theorem lastValue_single (c i : Nat) (s : GetoptStep) : lastValue c i [s] = s.valueFor c i := by
  rw [lastValue_cons, lastValue_nil]; rfl

theorem literalFlags_getLast?_cons (s : GetoptStep) (ss : List GetoptStep) :
    (literalFlags (s :: ss)).getLast? = ((literalFlags ss).getLast?).or s.literalFlag := by
  unfold literalFlags; exact getLast?_filterMap_cons _ _ _

theorem literalFlags_getLast?_single (s : GetoptStep) :
    (literalFlags [s]).getLast? = s.literalFlag := by
  rw [literalFlags_getLast?_cons]; rfl

theorem longGiven_cons (i : Nat) (s : GetoptStep) (ss : List GetoptStep) :
    longGiven i (s :: ss) = (longGiven i [s] || longGiven i ss) := by
  simp [longGiven]

theorem Summary.trans (K : Consts) (s : GetoptStep) (ss : List GetoptStep) (st st1 st2 : State)
    (h1 : Summary K [s] st st1) (h2 : Summary K ss st1 st2) : Summary K (s :: ss) st st2 := by
  obtain ⟨a1, a2, a3, a4, a5, a6, a7, a8, a9⟩ := h1
  obtain ⟨b1, b2, b3, b4, b5, b6, b7, b8, b9⟩ := h2
  simp only [archToken, fileTypeToken, labelToken, lastValue_single,
    literalFlags_getLast?_single] at a1 a2 a6 a7 a9
  simp only [archToken, fileTypeToken, labelToken] at b1 b2 b7 b9
  refine ⟨?_, ?_, ?_, ?_, ?_, ?_, ?_, ?_, ?_⟩
  · rw [b1, a1, archToken, lastValue_cons]
    cases lastValue 97 1 ss <;> cases GetoptStep.valueFor 97 1 s <;> rfl
  · rw [b2, a2, fileTypeToken, lastValue_cons]
    cases lastValue 116 2 ss <;> cases GetoptStep.valueFor 116 2 s <;> rfl
  · rw [b3, a3, longGiven_cons 3 s ss]
    cases longGiven 3 [s] <;> cases longGiven 3 ss <;> rfl
  · rw [b4, a4, longGiven_cons 7 s ss]
    cases longGiven 7 [s] <;> cases longGiven 7 ss <;> rfl
  · rw [b5, a5, longGiven_cons 8 s ss]
    cases longGiven 8 [s] <;> cases longGiven 8 ss <;> rfl
  · rw [b6, a6, literalFlags_getLast?_cons]
    cases (literalFlags ss).getLast? <;> cases s.literalFlag <;> rfl
  · rw [b7, a7]
    simp only [labelToken, lastValue_cons]
    rcases Option.eq_none_or_eq_some (lastValue 108 0 ss) with h1 | ⟨t1, h1⟩ <;>
      rcases Option.eq_none_or_eq_some (GetoptStep.valueFor 108 0 s) with h2 | ⟨t2, h2⟩ <;>
      simp [h1, h2, Nat.or_assoc]
  · rw [b8, a8]
  · rw [b9, a9, labelToken, lastValue_cons]
    cases lastValue 108 0 ss <;> cases GetoptStep.valueFor 108 0 s <;> rfl

theorem parseOptions_ok (K : Consts) (steps : List GetoptStep) (st : State)
    (hp : Proceeds steps) (hn : NulFree steps) (hs : Sized K st) :
    ∃ st1, parseOptions K steps st = .ok st1 ∧ Sized K st1 ∧ Summary K steps st st1 := by
  induction steps generalizing st with
  | nil => exact ⟨st, rfl, hs, Summary.refl K st⟩
  | cons s ss ih =>
    obtain ⟨st1, e1, hs1, sum1⟩ :=
      step_ok K s st (hp s (List.mem_cons_self _ _)) (hn s (List.mem_cons_self _ _)) hs
    obtain ⟨st2, e2, hs2, sum2⟩ :=
      ih st1 (fun x hx => hp x (List.mem_cons_of_mem _ hx))
        (fun x hx => hn x (List.mem_cons_of_mem _ hx)) hs1
    refine ⟨st2, ?_, hs2, Summary.trans K s ss st st1 st2 sum1 sum2⟩
    rw [parseOptions_cons, e1]
    exact e2

theorem initialState_sized (K : Consts) : Sized K (initialState K) := by
  simp [Sized, initialState]

theorem sameLetter_iff (a b : Nat) : SameLetter a b ↔ tolower a = tolower b := by
  unfold SameLetter tolower
  split_ifs <;> omega

theorem eqIgnoreCase_iff (s t : List Nat) :
    EqIgnoreCase s t ↔ s.map tolower = t.map tolower := by
  unfold EqIgnoreCase
  induction s generalizing t with
  | nil => cases t <;> simp
  | cons a as ih =>
    cases t with
    | nil => simp
    | cons b bs => simp [List.forall₂_cons, sameLetter_iff, ih]

theorem eqIgnoreCase_excl {s a b : List Nat} (h1 : EqIgnoreCase s a)
    (hab : a.map tolower ≠ b.map tolower) : ¬ EqIgnoreCase s b := by
  rw [eqIgnoreCase_iff] at *
  intro h2; exact hab (h1 ▸ h2)

theorem strcasecmp_padTo_lit (n : Nat) (tok t : List Nat) (hs : 0 ∉ tok) (ht : 0 ∉ t)
    (hlen : t.length < n) :
    ∃ r, strcasecmp (padTo tok n) (cstr t) = some r ∧ (r = 0 ↔ EqIgnoreCase tok t) := by
  have h := strcasecmp_padTo n tok t hs ht hlen []
  rw [List.append_nil] at h
  simpa [eqIgnoreCase_iff] using h

theorem strcasecmp_cstr_lit (s t : List Nat) (hs : 0 ∉ s) (ht : 0 ∉ t) (extra : Mem) :
    ∃ r, strcasecmp (cstr s ++ extra) (cstr t) = some r ∧ (r = 0 ↔ EqIgnoreCase s t) := by
  simpa [eqIgnoreCase_iff] using strcasecmp_cstr s t hs ht extra

theorem selectArch_initial (K : Consts) :
    selectArch K (initialState K).arch = .ok K.PIC_MIDRANGE := rfl

theorem readString_padTo (tok : List Nat) (h0 : 0 ∉ tok) (n : Nat) :
    readString (padTo tok n) = if tok.length < n then some tok else none := by
  induction n generalizing tok with
  | zero => simp [padTo, readString]
  | succ n ih =>
    cases tok with
    | nil => simp [padTo, readString, List.replicate_succ]
    | cons c cs =>
      have hc : c ≠ 0 := by intro h; apply h0; simp [h]
      have hcs : 0 ∉ cs := by intro h; apply h0; simp [h]
      simp only [padTo, readString, if_neg hc, ih cs hcs, List.length_cons,
        Nat.add_lt_add_iff_right]
      split_ifs <;> rfl

theorem selectArch_padTo (K : Consts) (tok : List Nat) (h0 : 0 ∉ tok) :
    selectArch K (padTo tok 9) =
      match resolveArch K (some tok) with
      | none => .error (archFailure (some tok))
      | some a => .ok a := by
  cases tok with
  | nil => rfl
  | cons c cs =>
    have hc : c ≠ 0 := by intro h; apply h0; simp [h]
    obtain ⟨r1, e1, i1⟩ := strcasecmp_padTo_lit 9 (c :: cs) (lit "baseline") h0 (by decide) (by decide)
    obtain ⟨r2, e2, i2⟩ := strcasecmp_padTo_lit 9 (c :: cs) (lit "midrange") h0 (by decide) (by decide)
    obtain ⟨r3, e3, i3⟩ := strcasecmp_padTo_lit 9 (c :: cs) (lit "enhanced") h0 (by decide) (by decide)
    have hr := readString_padTo (c :: cs) h0 9
    have hp : padTo (c :: cs) 9 = some c :: padTo cs 8 := rfl
    unfold selectArch
    rw [hp] at e1 e2 e3 hr ⊢
    simp only [e1, e2, e3, i1, i2, i3, hr, resolveArch, archFailure, Fits]
    split_ifs <;> rfl

theorem selectDisassembleFile_padTo (tok : List Nat) (h0 : 0 ∉ tok) :
    selectDisassembleFile (padTo tok 8) =
      match explicitType tok with
      | none => .error (typeFailure (some tok))
      | some f => .ok f := by
  obtain ⟨r1, e1, i1⟩ := strcasecmp_padTo_lit 8 tok (lit "ihex") h0 (by decide) (by decide)
  obtain ⟨r2, e2, i2⟩ := strcasecmp_padTo_lit 8 tok (lit "srecord") h0 (by decide) (by decide)
  simp only [selectDisassembleFile, e1, e2, i1, i2, explicitType, readString_padTo tok h0 8,
    typeFailure, Fits]
  split_ifs <;> rfl

theorem selectDisassembleFile_ihex (rest : Mem) :
    selectDisassembleFile (cstr (lit "ihex") ++ rest) = .ok .disassembleIHexFile := by
  obtain ⟨r1, e1, i1⟩ := strcasecmp_cstr_lit (lit "ihex") (lit "ihex") (by decide) (by decide) rest
  have : r1 = 0 := i1.2 (by decide)
  simp only [selectDisassembleFile, e1, this, if_true]

theorem selectDisassembleFile_srecord (rest : Mem) :
    selectDisassembleFile (cstr (lit "srecord") ++ rest) = .ok .disassembleSRecordFile := by
  obtain ⟨r1, e1, i1⟩ :=
    strcasecmp_cstr_lit (lit "srecord") (lit "ihex") (by decide) (by decide) rest
  obtain ⟨r2, e2, i2⟩ :=
    strcasecmp_cstr_lit (lit "srecord") (lit "srecord") (by decide) (by decide) rest
  have h1 : r1 ≠ 0 := fun h => absurd (i1.1 h) (by decide)
  have h2 : r2 = 0 := i2.2 (by decide)
  simp only [selectDisassembleFile, e1, e2, h1, h2, if_true, if_false]

theorem rindex_cstr (file : List Nat) (h0 : 0 ∉ file) :
    rindex (cstr file) 46 = some ((extensionOf file).map (fun e => some 46 :: cstr e)) := by
  induction file with
  | nil => simp [cstr_nil, rindex, extensionOf]
  | cons c cs ih =>
    have hc : c ≠ 0 := by intro h; apply h0; simp [h]
    have hcs : 0 ∉ cs := by intro h; apply h0; simp [h]
    rw [cstr_cons]
    simp only [rindex, hc, if_false, ih hcs, extensionOf]
    cases extensionOf cs with
    | some e => rfl
    | none =>
      by_cases h : c = 46
      · subst h; rfl
      · simp [h]

theorem extensionOf_nulFree {file ext : List Nat} (h0 : 0 ∉ file)
    (h : extensionOf file = some ext) : 0 ∉ ext := by
  induction file with
  | nil => simp [extensionOf] at h
  | cons c cs ih =>
    have hcs : 0 ∉ cs := by intro h; apply h0; simp [h]
    simp only [extensionOf] at h
    cases he : extensionOf cs with
    | some e =>
      rw [he] at h
      simp only [Option.some.injEq] at h
      subst h
      exact ih hcs he
    | none =>
      rw [he] at h
      by_cases hc : c = 46
      · simp [hc] at h; exact h ▸ hcs
      · simp [hc] at h

theorem extensionOf_none {file : List Nat} (h : 46 ∉ file) : extensionOf file = none := by
  induction file with
  | nil => rfl
  | cons c cs ih =>
    have hc : c ≠ 46 := by intro e; apply h; simp [e]
    have hcs : 46 ∉ cs := by intro e; apply h; simp [e]
    simp [extensionOf, ih hcs, hc]

theorem extensionOf_append (pre ext : List Nat) (h : 46 ∉ ext) :
    extensionOf (pre ++ 46 :: ext) = some ext := by
  induction pre with
  | nil => simp [extensionOf, extensionOf_none h]
  | cons c cs ih => simp [extensionOf, ih]

theorem autoRecognize_explicit (c : Nat) (cs : List Nat) (hc : c ≠ 0) (file : Mem) :
    autoRecognize (padTo (c :: cs) 8) file = .ok (padTo (c :: cs) 8) := by
  have hp : padTo (c :: cs) 8 = some c :: padTo cs 7 := rfl
  rw [hp]
  unfold autoRecognize
  split
  · rename_i h; simp at h; exact absurd h.1 hc
  · rfl
  · rename_i h1 h2; exact absurd rfl (h2 c (padTo cs 7))

theorem strcpy_ihex (rest : Mem) (hl : rest.length = 7) :
    strcpy (some 0 :: rest) (cstr (lit "ihex")) = some (cstr (lit "ihex") ++ rest.drop 4) := by
  have h : strcpyBytes (cstr (lit "ihex")) = some (cstr (lit "ihex")) := by decide
  simp only [strcpy, h]
  have h2 : (cstr (lit "ihex")).length = 5 := by decide
  simp [h2, hl]

theorem strcpy_srecord (rest : Mem) (hl : rest.length = 7) :
    strcpy (some 0 :: rest) (cstr (lit "srecord")) =
      some (cstr (lit "srecord") ++ rest.drop 7) := by
  have h : strcpyBytes (cstr (lit "srecord")) = some (cstr (lit "srecord")) := by decide
  simp only [strcpy, h]
  have h2 : (cstr (lit "srecord")).length = 8 := by decide
  simp [h2, hl]

theorem autoRecognize_empty (rest : Mem) (hl : rest.length = 7) (file : List Nat)
    (h0 : 0 ∉ file) :
    autoRecognize (some 0 :: rest) (cstr file) =
      match inferType file with
      | none => .error autoRecognizeFailure
      | some .disassembleIHexFile => .ok (cstr (lit "ihex") ++ rest.drop 4)
      | some .disassembleSRecordFile => .ok (cstr (lit "srecord") ++ rest.drop 7) := by
  simp only [autoRecognize, rindex_cstr file h0, inferType]
  cases he : extensionOf file with
  | none => rfl
  | some ext =>
    have hx := extensionOf_nulFree h0 he
    obtain ⟨r1, e1, i1⟩ := strcasecmp_cstr_lit ext (lit "ihx") hx (by decide) []
    obtain ⟨r2, e2, i2⟩ := strcasecmp_cstr_lit ext (lit "hex") hx (by decide) []
    obtain ⟨r3, e3, i3⟩ := strcasecmp_cstr_lit ext (lit "ihex") hx (by decide) []
    obtain ⟨r4, e4, i4⟩ := strcasecmp_cstr_lit ext (lit "srec") hx (by decide) []
    obtain ⟨r5, e5, i5⟩ := strcasecmp_cstr_lit ext (lit "sre") hx (by decide) []
    rw [List.append_nil] at e1 e2 e3 e4 e5
    simp only [Option.map_some', List.drop_succ_cons, List.drop_zero, e1, e2, e3, e4, e5, i1, i2,
      i3, i4, i5, strcpy_ihex rest hl, strcpy_srecord rest hl, afterStrcpy, typeOfExtension]
    by_cases h1 : EqIgnoreCase ext (lit "ihx")
    · simp [h1]
    by_cases h2 : EqIgnoreCase ext (lit "hex")
    · simp [h1, h2]
    by_cases h3 : EqIgnoreCase ext (lit "ihex")
    · simp [h1, h2, h3]
    by_cases h4 : EqIgnoreCase ext (lit "srec")
    · simp [h1, h2, h3, h4]
    by_cases h5 : EqIgnoreCase ext (lit "sre")
    · simp [h1, h2, h3, h4, h5]
    · simp [h1, h2, h3, h4, h5]

theorem lastValue_nulFree {c i : Nat} {steps : List GetoptStep} {t : List Nat}
    (hn : NulFree steps) (h : lastValue c i steps = some t) : 0 ∉ t := by
  unfold lastValue at h
  have hm := List.mem_of_getLast?_eq_some h
  rw [List.mem_filterMap] at hm
  obtain ⟨s, hs, hv⟩ := hm
  have := hn s hs
  cases s with
  | invalid => simp [GetoptStep.valueFor] at hv
  | long j v =>
    simp only [GetoptStep.valueFor] at hv
    split_ifs at hv
    simp only [Option.some.injEq] at hv
    subst hv; exact this
  | short d v =>
    simp only [GetoptStep.valueFor] at hv
    split_ifs at hv
    simp only [Option.some.injEq] at hv
    subst hv; exact this

/-- What the stages after the option loop compute, in terms of the effective tokens. -/
theorem stages (K : Consts) (steps : List GetoptStep) (hp : Proceeds steps)
    (hn : NulFree steps) :
    ∃ st, parseOptions K steps (initialState K) = .ok st ∧
      Summary K steps (initialState K) st ∧
      (selectArch K st.arch =
        match resolveArch K (archToken steps) with
        | none => .error (archFailure (archToken steps))
        | some a => .ok a) ∧
      ∀ file : List Nat, 0 ∉ file →
        match fileTypeToken steps with
        | some (c :: cs) =>
          autoRecognize st.fileType (cstr file) = .ok st.fileType ∧
          selectDisassembleFile st.fileType =
            match explicitType (c :: cs) with
            | none => .error (typeFailure (some (c :: cs)))
            | some f => .ok f
        | _ =>
          match inferType file with
          | none =>
            autoRecognize st.fileType (cstr file) =
              .error (ConfigError.UnrecognizedExtension.outcome)
          | some f =>
            ∃ ft, autoRecognize st.fileType (cstr file) = .ok ft ∧
              selectDisassembleFile ft = .ok f := by
  obtain ⟨st, e, _, sum⟩ := parseOptions_ok K steps (initialState K) hp hn (initialState_sized K)
  refine ⟨st, e, sum, ?_, ?_⟩
  · obtain ⟨a1, _⟩ := sum
    rw [a1]
    cases h : archToken steps with
    | none => rfl
    | some t =>
      have h0 := lastValue_nulFree hn h
      exact selectArch_padTo K t h0
  · intro file hf
    obtain ⟨_, a2, _⟩ := sum
    rw [a2]
    cases h : fileTypeToken steps with
    | none =>
      have := autoRecognize_empty (List.replicate 7 none) (by simp) file hf
      simp only [initialState]
      rw [this]
      cases inferType file with
      | none => rfl
      | some f =>
        cases f with
        | disassembleIHexFile => exact ⟨_, rfl, selectDisassembleFile_ihex _⟩
        | disassembleSRecordFile => exact ⟨_, rfl, selectDisassembleFile_srecord _⟩
    | some t =>
      have h0 := lastValue_nulFree hn h
      cases t with
      | nil =>
        have := autoRecognize_empty (List.replicate 7 (some 0)) (by simp) file hf
        have hp8 : padTo [] 8 = some 0 :: List.replicate 7 (some 0) := rfl
        simp only [hp8]
        rw [this]
        cases inferType file with
        | none => rfl
        | some f =>
          cases f with
          | disassembleIHexFile => exact ⟨_, rfl, selectDisassembleFile_ihex _⟩
          | disassembleSRecordFile => exact ⟨_, rfl, selectDisassembleFile_srecord _⟩
      | cons c cs =>
        have hc : c ≠ 0 := by intro h'; apply h0; simp [h']
        exact ⟨autoRecognize_explicit c cs hc _, selectDisassembleFile_padTo _ h0⟩

theorem main_eq_job (K : Consts) (canOpen : List Nat → Bool) (steps : List GetoptStep)
    (operands : List (List Nat)) (hp : Proceeds steps) (hn : NulFree steps)
    (ho : ∀ f, operands.head? = some f → 0 ∉ f) (st : State)
    (e : parseOptions K steps (initialState K) = .ok st) :
    main K canOpen ⟨steps, operands⟩ =
      job K canOpen (archToken steps) (fileTypeToken steps) (assembleOptions K st)
        operands := by
  obtain ⟨st1, e1, _, hA, hF⟩ := stages K steps hp hn
  have hst : st1 = st := by
    rw [e1] at e
    exact Except.ok.inj e
  subst hst
  cases operands with
  | nil => simp [main, e, job, ConfigError.outcome]
  | cons file rest =>
    have hF := hF file (ho file rfl)
    simp only [main, e, job]
    rcases hT : fileTypeToken steps with _ | (_ | ⟨c, cs⟩)
    · rw [hT] at hF
      simp only at hF ⊢
      cases hI : inferType file with
      | none =>
        rw [hI] at hF; simp only at hF
        rw [hF]
      | some f =>
        rw [hI] at hF; simp only at hF
        obtain ⟨ft, h1, h2⟩ := hF
        rw [h1, hA]
        cases resolveArch K (archToken steps) with
        | none => rfl
        | some a => simp only [h2, runOutcome, ConfigError.outcome]
    · rw [hT] at hF
      simp only at hF ⊢
      cases hI : inferType file with
      | none =>
        rw [hI] at hF; simp only at hF
        rw [hF]
      | some f =>
        rw [hI] at hF; simp only at hF
        obtain ⟨ft, h1, h2⟩ := hF
        rw [h1, hA]
        cases resolveArch K (archToken steps) with
        | none => rfl
        | some a => simp only [h2, runOutcome, ConfigError.outcome]
    · rw [hT] at hF
      simp only at hF ⊢
      obtain ⟨h1, h2⟩ := hF
      rw [h1, hA]
      cases resolveArch K (archToken steps) with
      | none => rfl
      | some a =>
        simp only [h2]
        cases explicitType (c :: cs) with
        | none => rfl
        | some f => simp only [runOutcome, ConfigError.outcome]

/-! ## Properties of `main` -/

theorem job_of_arch_unknown (K : Consts) (canOpen : List Nat → Bool)
    (tokA tokT : Option (List Nat)) (fo : formattingOptions) (operands : List (List Nat))
    (h : resolveArch K tokA = none) :
    job K canOpen tokA tokT fo operands = ConfigError.NoInputFile.outcome ∨
      job K canOpen tokA tokT fo operands = ConfigError.UnrecognizedExtension.outcome ∨
      job K canOpen tokA tokT fo operands = archFailure tokA := by
  cases operands with
  | nil => left; rfl
  | cons file rest =>
    right
    simp only [job, h]
    rcases tokT with _ | (_ | ⟨c, cs⟩)
    · cases inferType file <;> simp
    · cases inferType file <;> simp
    · simp

theorem job_cases (K : Consts) (canOpen : List Nat → Bool)
    (tokA tokT : Option (List Nat)) (fo : formattingOptions) (operands : List (List Nat)) :
    job K canOpen tokA tokT fo operands = ConfigError.NoInputFile.outcome ∨
      job K canOpen tokA tokT fo operands = ConfigError.UnrecognizedExtension.outcome ∨
      job K canOpen tokA tokT fo operands = archFailure tokA ∨
      job K canOpen tokA tokT fo operands = typeFailure tokT ∨
      ∃ file rest f a, operands = file :: rest ∧ resolveArch K tokA = some a ∧
        job K canOpen tokA tokT fo operands = runOutcome canOpen file f fo a := by
  cases operands with
  | nil => left; rfl
  | cons file rest =>
    right
    simp only [job]
    rcases tokT with _ | (_ | ⟨c, cs⟩)
    · cases inferType file with
      | none => left; rfl
      | some f =>
        right
        cases hr : resolveArch K tokA with
        | none => left; rfl
        | some a => right; right; exact ⟨file, rest, f, a, rfl, rfl, rfl⟩
    · cases inferType file with
      | none => left; rfl
      | some f =>
        right
        cases hr : resolveArch K tokA with
        | none => left; rfl
        | some a => right; right; exact ⟨file, rest, f, a, rfl, rfl, rfl⟩
    · right
      dsimp only
      cases hr : resolveArch K tokA with
      | none => left; rfl
      | some a =>
        right
        dsimp only
        cases he : explicitType (c :: cs) with
        | none => left; rfl
        | some f => right; exact ⟨file, rest, f, a, rfl, rfl, rfl⟩

theorem no_disassemble_of_failure {o : Outcome} {evs : List Event} {status : Nat}
    (ho : o = ConfigError.NoInputFile.outcome ∨ o = ConfigError.UnrecognizedExtension.outcome ∨
      (∃ t, o = archFailure t) ∨ ∃ t, o = typeFailure t)
    (hj : o = .exit evs status) :
    status = EXIT_FAILURE ∧ ∀ e ∈ evs, ∃ m, e = Event.write .stderr m := by
  rcases ho with rfl | rfl | ⟨t, rfl⟩ | ⟨t, rfl⟩
  · simp only [ConfigError.outcome, Outcome.exit.injEq] at hj
    obtain ⟨rfl, rfl⟩ := hj
    simp
  · simp only [ConfigError.outcome, Outcome.exit.injEq] at hj
    obtain ⟨rfl, rfl⟩ := hj
    simp
  · unfold archFailure at hj
    split_ifs at hj
    simp only [ConfigError.outcome, Outcome.exit.injEq] at hj
    obtain ⟨rfl, rfl⟩ := hj
    simp
  · unfold typeFailure at hj
    split_ifs at hj
    simp only [ConfigError.outcome, Outcome.exit.injEq] at hj
    obtain ⟨rfl, rfl⟩ := hj
    simp

theorem job_disassemble (K : Consts) (canOpen : List Nat → Bool)
    (tokA tokT : Option (List Nat)) (fo : formattingOptions) (operands : List (List Nat))
    (evs : List Event) (status : Nat) (f : DisassembleFile) (fo1 : formattingOptions) (b : Int)
    (hj : job K canOpen tokA tokT fo operands = .exit evs status)
    (hm : Event.disassemble f fo1 b ∈ evs) :
    resolveArch K tokA = some b ∧ fo1 = fo ∧ status = EXIT_SUCCESS ∧
      ∃ file rest, operands = file :: rest ∧ canOpen file = true ∧
        evs = [.fopen file, .disassemble f fo1 b, .fclose] := by
  have hw : ∀ o, (o = ConfigError.NoInputFile.outcome ∨
      o = ConfigError.UnrecognizedExtension.outcome ∨
      (∃ t, o = archFailure t) ∨ ∃ t, o = typeFailure t) → o = .exit evs status → False := by
    intro o ho hj
    obtain ⟨m, hm1⟩ := (no_disassemble_of_failure ho hj).2 _ hm
    simp at hm1
  rcases job_cases K canOpen tokA tokT fo operands with h | h | h | h |
    ⟨file, rest, f2, a, hop, hr, h⟩
  · exact absurd hj (fun hj => hw _ (Or.inl h) hj)
  · exact absurd hj (fun hj => hw _ (Or.inr (Or.inl h)) hj)
  · exact absurd hj (fun hj => hw _ (Or.inr (Or.inr (Or.inl ⟨_, h⟩))) hj)
  · exact absurd hj (fun hj => hw _ (Or.inr (Or.inr (Or.inr ⟨_, h⟩))) hj)
  · rw [h] at hj
    unfold runOutcome at hj
    by_cases hc : canOpen file = true
    · rw [if_pos hc] at hj
      simp only [Outcome.exit.injEq] at hj
      obtain ⟨rfl, rfl⟩ := hj
      simp at hm
      obtain ⟨rfl, rfl, rfl⟩ := hm
      exact ⟨hr, rfl, rfl, file, rest, hop, hc, rfl⟩
    · rw [if_neg hc] at hj
      simp only [ConfigError.outcome, Outcome.exit.injEq] at hj
      obtain ⟨rfl, _⟩ := hj; simp at hm

theorem selectArch_error_iff {K : Consts} {tokA : Option (List Nat)} {arch : Mem}
    (hA : selectArch K arch =
      match resolveArch K tokA with
      | none => .error (archFailure tokA)
      | some a => .ok a) :
    (∀ o, selectArch K arch = .error o → resolveArch K tokA = none ∧ o = archFailure tokA) ∧
      (∀ a, selectArch K arch = .ok a → resolveArch K tokA = some a) := by
  rw [hA]
  cases resolveArch K tokA with
  | none =>
    refine ⟨fun o h => ⟨rfl, ?_⟩, fun a h => ?_⟩
    · simp only [Except.error.injEq] at h
      exact h.symm
    · simp at h
  | some a => simp

/-- C1 (the code departs from the claim for tokens of 9 or more characters): architecture
resolution.  After the option loop, `selectArch` applied to the 9-byte `arch` buffer yields
`PIC_MIDRANGE` when no `-a` token was given or the effective token is empty, and the value
of the named architecture when the token equals `baseline`, `midrange` or `enhanced`
ignoring letter case.  For every other non-empty token of at most 8 characters it fails
with the unknown-architecture diagnostics and `EXIT_FAILURE`.  For every other token of 9
or more characters `strncpy` left `arch` without a NUL, the diagnostic reads past the
buffer, and the behaviour of `selectArch`, and of `main` once it reaches the architecture
selection, is undefined.  In `main`, a failed selection ends the run as the selection does
(unless an error with precedence ends it first), and a successful one is the architecture
passed to the disassembly routine. -/
theorem arch_resolution (K : Consts) (steps : List GetoptStep) (hp : Proceeds steps)
    (hn : NulFree steps) :
    ∃ st, parseOptions K steps (initialState K) = .ok st ∧
      ((archToken steps = none ∨ archToken steps = some []) →
        selectArch K st.arch = .ok K.PIC_MIDRANGE) ∧
      (∀ tok, archToken steps = some tok →
        (EqIgnoreCase tok (lit "baseline") → selectArch K st.arch = .ok K.PIC_BASELINE) ∧
        (EqIgnoreCase tok (lit "midrange") → selectArch K st.arch = .ok K.PIC_MIDRANGE) ∧
        (EqIgnoreCase tok (lit "enhanced") →
          selectArch K st.arch = .ok K.PIC_MIDRANGE_ENHANCED) ∧
        (tok ≠ [] → ¬ EqIgnoreCase tok (lit "baseline") →
          ¬ EqIgnoreCase tok (lit "midrange") → ¬ EqIgnoreCase tok (lit "enhanced") →
          (tok.length ≤ 8 →
            selectArch K st.arch =
              .error (.exit [.write .stderr .unknownArchitecture,
                .write .stderr .seeHelpArchitectures] EXIT_FAILURE)) ∧
          (9 ≤ tok.length → selectArch K st.arch = .error .undefined))) ∧
      (∀ (canOpen : List Nat → Bool) (operands : List (List Nat)),
        (∀ f, operands.head? = some f → 0 ∉ f) →
        (∀ o, selectArch K st.arch = .error o →
          main K canOpen ⟨steps, operands⟩ = ConfigError.NoInputFile.outcome ∨
          main K canOpen ⟨steps, operands⟩ = ConfigError.UnrecognizedExtension.outcome ∨
          main K canOpen ⟨steps, operands⟩ = o) ∧
        (∀ a, selectArch K st.arch = .ok a →
          ∀ evs status f fo b, main K canOpen ⟨steps, operands⟩ = .exit evs status →
            Event.disassemble f fo b ∈ evs → b = a)) := by
  obtain ⟨st, e, _, hA, _⟩ := stages K steps hp hn
  refine ⟨st, e, ?_, ?_, ?_⟩
  · rintro (h | h) <;> simp [hA, h, resolveArch]
  · intro tok h
    rw [hA, h]
    refine ⟨?_, ?_, ?_, ?_⟩
    · intro h1
      cases tok with
      | nil => exact absurd h1 (by decide)
      | cons c cs => simp [resolveArch, h1]
    · intro h1
      have n1 : ¬ EqIgnoreCase tok (lit "baseline") := eqIgnoreCase_excl h1 (by decide)
      cases tok with
      | nil => exact absurd h1 (by decide)
      | cons c cs => simp [resolveArch, h1, n1]
    · intro h1
      have n1 : ¬ EqIgnoreCase tok (lit "baseline") := eqIgnoreCase_excl h1 (by decide)
      have n2 : ¬ EqIgnoreCase tok (lit "midrange") := eqIgnoreCase_excl h1 (by decide)
      cases tok with
      | nil => exact absurd h1 (by decide)
      | cons c cs => simp [resolveArch, h1, n1, n2]
    · intro hne n1 n2 n3
      cases tok with
      | nil => exact absurd rfl hne
      | cons c cs =>
        refine ⟨?_, ?_⟩
        · intro hl
          have hfit : Fits 9 (some (c :: cs)) := by
            show (c :: cs).length < 9
            omega
          simp [resolveArch, n1, n2, n3, archFailure, hfit, ConfigError.outcome]
        · intro hl
          have hfit : ¬ Fits 9 (some (c :: cs)) := by
            show ¬ (c :: cs).length < 9
            omega
          simp [resolveArch, n1, n2, n3, archFailure, hfit]
  · intro canOpen operands ho
    have hm := main_eq_job K canOpen steps operands hp hn ho st e
    obtain ⟨he, hk⟩ := selectArch_error_iff hA
    refine ⟨?_, ?_⟩
    · intro o h
      rw [hm, (he o h).2]
      exact job_of_arch_unknown K canOpen _ _ _ _ (he o h).1
    · intro a h evs status f fo b hj hmem
      rw [hm] at hj
      have hb := (job_disassemble K canOpen _ _ _ _ evs status f fo b hj hmem).1
      rw [hk a h] at hb
      exact (Option.some.inj hb).symm

/-- Witness for C1: the token `baseline` resolves, `pic18` is rejected with the
diagnostics, and for `baselineX` (9 characters) the behaviour of `selectArch` and of `main`
is undefined. -/
theorem arch_resolution_witness :
    main sampleConsts (fun _ => true) ⟨[.short 97 (lit "pic18")], [lit "prog.hex"]⟩ =
        .exit [.write .stderr .unknownArchitecture, .write .stderr .seeHelpArchitectures]
          EXIT_FAILURE ∧
    ∃ st, parseOptions sampleConsts [.short 97 (lit "baselineX")] (initialState sampleConsts)
        = .ok st ∧
      selectArch sampleConsts st.arch = .error .undefined ∧
      main sampleConsts (fun _ => true) ⟨[.short 97 (lit "baselineX")], [lit "prog.hex"]⟩ =
        .undefined := by
  refine ⟨?_, ?_⟩
  · obtain ⟨st, e, _, h2, h3⟩ :=
      arch_resolution sampleConsts [.short 97 (lit "pic18")] (by decide) (by decide)
    have hs := ((h2 (lit "pic18") (by decide)).2.2.2 (by decide) (by decide) (by decide)
      (by decide)).1 (by decide)
    rcases (h3 (fun _ => true) [lit "prog.hex"] (by decide)).1 _ hs with h | h | h
    · exact absurd h (by decide)
    · exact absurd h (by decide)
    · exact h
  · obtain ⟨st, e, _, h2, h3⟩ :=
      arch_resolution sampleConsts [.short 97 (lit "baselineX")] (by decide) (by decide)
    have hs := ((h2 (lit "baselineX") (by decide)).2.2.2 (by decide) (by decide) (by decide)
      (by decide)).2 (by decide)
    refine ⟨st, e, hs, ?_⟩
    rcases (h3 (fun _ => true) [lit "prog.hex"] (by decide)).1 _ hs with h | h | h
    · exact absurd h (by decide)
    · exact absurd h (by decide)
    · exact h

/-- C2: file-type inference from the extension.  With no `-t` option, let `ext` be the
part of the path after its last `'.'`.  If `ext` equals `hex`, `ihex` or `ihx` ignoring
letter case, auto-recognition succeeds and the Intel HEX routine is selected; if it equals
`srec` or `sre`, the S-Record routine is selected; in both cases the run goes on to open
the file once the architecture is resolved.  If `ext` is anything else (also empty), or
the path has no `'.'`, auto-recognition fails and `main` exits with the
unrecognized-extension diagnostics and `EXIT_FAILURE`. -/
theorem extension_inference (K : Consts) (steps : List GetoptStep) (hp : Proceeds steps)
    (hn : NulFree steps) (hT : fileTypeToken steps = none) (file : List Nat)
    (h0 : 0 ∉ file) :
    ∃ st, parseOptions K steps (initialState K) = .ok st ∧
      (∀ pre ext, file = pre ++ 46 :: ext → 46 ∉ ext →
        ((EqIgnoreCase ext (lit "hex") ∨ EqIgnoreCase ext (lit "ihex") ∨
            EqIgnoreCase ext (lit "ihx")) →
          (∃ ft, autoRecognize st.fileType (cstr file) = .ok ft ∧
            selectDisassembleFile ft = .ok .disassembleIHexFile) ∧
          ∀ (canOpen : List Nat → Bool) rest a, selectArch K st.arch = .ok a →
            main K canOpen ⟨steps, file :: rest⟩ =
              runOutcome canOpen file .disassembleIHexFile (assembleOptions K st) a) ∧
        ((EqIgnoreCase ext (lit "srec") ∨ EqIgnoreCase ext (lit "sre")) →
          (∃ ft, autoRecognize st.fileType (cstr file) = .ok ft ∧
            selectDisassembleFile ft = .ok .disassembleSRecordFile) ∧
          ∀ (canOpen : List Nat → Bool) rest a, selectArch K st.arch = .ok a →
            main K canOpen ⟨steps, file :: rest⟩ =
              runOutcome canOpen file .disassembleSRecordFile (assembleOptions K st) a) ∧
        (¬ EqIgnoreCase ext (lit "hex") → ¬ EqIgnoreCase ext (lit "ihex") →
          ¬ EqIgnoreCase ext (lit "ihx") → ¬ EqIgnoreCase ext (lit "srec") →
          ¬ EqIgnoreCase ext (lit "sre") →
          autoRecognize st.fileType (cstr file) =
            .error (.exit [.write .stderr .cannotAutoRecognize,
              .write .stderr .pleaseSpecifyFileType] EXIT_FAILURE) ∧
          ∀ (canOpen : List Nat → Bool) rest,
            main K canOpen ⟨steps, file :: rest⟩ =
              .exit [.write .stderr .cannotAutoRecognize,
                .write .stderr .pleaseSpecifyFileType] EXIT_FAILURE)) ∧
      (46 ∉ file →
        autoRecognize st.fileType (cstr file) =
          .error (.exit [.write .stderr .cannotAutoRecognize,
            .write .stderr .pleaseSpecifyFileType] EXIT_FAILURE) ∧
        ∀ (canOpen : List Nat → Bool) rest,
          main K canOpen ⟨steps, file :: rest⟩ =
            .exit [.write .stderr .cannotAutoRecognize,
              .write .stderr .pleaseSpecifyFileType] EXIT_FAILURE) := by
  obtain ⟨st, e, _, hA, hF⟩ := stages K steps hp hn
  have hF := hF file h0
  rw [hT] at hF
  simp only at hF
  have hm : ∀ (canOpen : List Nat → Bool) rest, main K canOpen ⟨steps, file :: rest⟩ =
      job K canOpen (archToken steps) none (assembleOptions K st) (file :: rest) := by
    intro canOpen rest
    have := main_eq_job K canOpen steps (file :: rest) hp hn
      (fun f hf => by simp at hf; exact hf ▸ h0) st e
    rw [hT] at this
    exact this
  obtain ⟨_, hk⟩ := selectArch_error_iff hA
  refine ⟨st, e, ?_, ?_⟩
  · intro pre ext hfile hdot
    have hext : extensionOf file = some ext := hfile ▸ extensionOf_append pre ext hdot
    refine ⟨?_, ?_, ?_⟩
    · intro h
      have hi : inferType file = some .disassembleIHexFile := by
        simp only [inferType, hext, typeOfExtension]
        rw [if_pos (by tauto)]
      rw [hi] at hF
      simp only at hF
      refine ⟨hF, ?_⟩
      intro canOpen rest a ha
      rw [hm]
      simp only [job, hi, hk a ha]
    · intro h
      have n1 : ¬ EqIgnoreCase ext (lit "ihx") := by
        rcases h with h | h <;> exact eqIgnoreCase_excl h (by decide)
      have n2 : ¬ EqIgnoreCase ext (lit "hex") := by
        rcases h with h | h <;> exact eqIgnoreCase_excl h (by decide)
      have n3 : ¬ EqIgnoreCase ext (lit "ihex") := by
        rcases h with h | h <;> exact eqIgnoreCase_excl h (by decide)
      have hi : inferType file = some .disassembleSRecordFile := by
        simp only [inferType, hext, typeOfExtension]
        rw [if_neg (by tauto), if_pos (by tauto)]
      rw [hi] at hF
      simp only at hF
      refine ⟨hF, ?_⟩
      intro canOpen rest a ha
      rw [hm]
      simp only [job, hi, hk a ha]
    · intro n1 n2 n3 n4 n5
      have hi : inferType file = none := by
        simp only [inferType, hext, typeOfExtension]
        rw [if_neg (by tauto), if_neg (by tauto)]
      rw [hi] at hF
      simp only at hF
      refine ⟨hF, ?_⟩
      intro canOpen rest
      rw [hm]
      simp only [job, hi]
      rfl
  · intro hdot
    have hi : inferType file = none := by
      simp only [inferType, extensionOf_none hdot]
    rw [hi] at hF
    simp only at hF
    refine ⟨hF, ?_⟩
    intro canOpen rest
    rw [hm]
    simp only [job, hi]
    rfl

/-- Witness for C2: `Blink.X.HEX` is disassembled as Intel HEX; `prog.srec.txt` is not recognized. -/
theorem extension_inference_witness :
    main sampleConsts (fun _ => true) ⟨[], [lit "Blink.X.HEX"]⟩ =
        .exit [.fopen (lit "Blink.X.HEX"),
          .disassemble .disassembleIHexFile ⟨14, 3, List.replicate 8 none⟩ 1, .fclose]
          EXIT_SUCCESS ∧
      main sampleConsts (fun _ => true) ⟨[], [lit "prog.srec.txt"]⟩ =
        .exit [.write .stderr .cannotAutoRecognize, .write .stderr .pleaseSpecifyFileType]
          EXIT_FAILURE := by
  obtain ⟨st, e, h1, _⟩ :=
    extension_inference sampleConsts [] (by decide) (by decide) (by decide)
      (lit "Blink.X.HEX") (by decide)
  obtain ⟨st2, e2, h2, _⟩ :=
    extension_inference sampleConsts [] (by decide) (by decide) (by decide)
      (lit "prog.srec.txt") (by decide)
  have hst : st = initialState sampleConsts := (Except.ok.inj e).symm
  subst hst
  refine ⟨?_, ?_⟩
  · have := ((h1 (lit "Blink.X") (lit "HEX") (by decide) (by decide)).1
      (Or.inl (by decide))).2 (fun _ => true) [] 1 rfl
    rw [this]
    decide
  · exact ((h2 (lit "prog.srec") (lit "txt") (by decide) (by decide)).2.2
      (by decide) (by decide) (by decide) (by decide) (by decide)).2 (fun _ => true) []

theorem unknownArch_iff (K : Consts) (steps : List GetoptStep) :
    UnknownArch steps ↔ resolveArch K (archToken steps) = none := by
  unfold UnknownArch
  rcases archToken steps with _ | (_ | ⟨c, cs⟩)
  · simp [resolveArch]
  · simp [resolveArch]
  · simp only [resolveArch]
    split_ifs <;> simp_all

theorem unknownType_iff (steps : List GetoptStep) :
    UnknownType steps ↔
      ∃ c cs, fileTypeToken steps = some (c :: cs) ∧ explicitType (c :: cs) = none := by
  unfold UnknownType
  rcases fileTypeToken steps with _ | (_ | ⟨c, cs⟩)
  · simp
  · simp
  · simp only [Option.some.injEq, List.cons.injEq, explicitType]
    constructor
    · rintro ⟨_, h1, h2⟩
      exact ⟨c, cs, ⟨rfl, rfl⟩, by simp [h1, h2]⟩
    · rintro ⟨c1, cs1, ⟨rfl, rfl⟩, h⟩
      split_ifs at h with h1 h2
      exact ⟨by simp, h1, h2⟩

theorem recognised_iff (file : List Nat) :
    RecognisedExtension file ↔ inferType file ≠ none := by
  unfold RecognisedExtension inferType
  cases extensionOf file with
  | none => simp
  | some ext =>
    simp only [typeOfExtension]
    split_ifs with h1 h2
    · simp only [ne_eq, not_false_eq_true, reduceCtorEq, iff_true]; tauto
    · simp only [ne_eq, not_false_eq_true, reduceCtorEq, iff_true]; tauto
    · simp only [ne_eq, not_true_eq_false, iff_false]; tauto

theorem fileType_after_token (K : Consts) (steps : List GetoptStep) (st : State)
    (tok : List Nat) (hT : fileTypeToken steps = some tok)
    (hs : Summary K steps (initialState K) st) : st.fileType = padTo tok 8 := by
  obtain ⟨_, a2, _⟩ := hs
  rw [a2, hT]

theorem runOutcome_ne_error (canOpen : List Nat → Bool) (file : List Nat)
    (f : DisassembleFile) (fo : formattingOptions) (a : Int) :
    runOutcome canOpen file f fo a ≠ ConfigError.UnrecognizedExtension.outcome ∧
      runOutcome canOpen file f fo a ≠ ConfigError.UnknownFileType.outcome ∧
      runOutcome canOpen file f fo a ≠ ConfigError.UnknownArchitecture.outcome ∧
      runOutcome canOpen file f fo a ≠ ConfigError.NoInputFile.outcome := by
  unfold runOutcome
  split_ifs <;> simp [ConfigError.outcome]

/-- C3 (as stated, refuted): with the empty token `-t ""` and the input `prog.hex`, the
token equals neither `ihex` nor `srecord`, yet the run does not fail with the
unknown-file-type error: the extension is used and the Intel HEX routine is called. -/
theorem explicit_type_rejection_counterexample :
    fileTypeToken [.short 116 []] = some [] ∧
      ¬ EqIgnoreCase [] (lit "ihex") ∧ ¬ EqIgnoreCase [] (lit "srecord") ∧
      main sampleConsts (fun _ => true) ⟨[.short 116 []], [lit "prog.hex"]⟩ =
        .exit [.fopen (lit "prog.hex"),
          .disassemble .disassembleIHexFile ⟨14, 3, List.replicate 8 none⟩ 1, .fclose]
          EXIT_SUCCESS := by
  decide

/-- C3 (amended): explicit file-type rejection.  Let the option loop run to its end (no
help, version or rejected option) and let the effective `-t` token equal neither `ihex`
nor `srecord` ignoring letter case.  If the token is not empty, then for every input
filename auto-recognition leaves the `fileType` buffer as it is (the extension is not
consulted); if moreover the token has at most 7 characters, the selection of the
disassembly routine fails with the unknown-file-type diagnostics and `EXIT_FAILURE`, and
`main`, given an operand, exits with that failure once the architecture resolves; when
the architecture selection fails, `main` ends as that selection does.  If the token is
empty, it is treated like an absent `-t` option: for every input filename
auto-recognition infers the routine from the extension, and `main` exits with the
unrecognized-extension diagnostics and `EXIT_FAILURE` when the extension is not
recognized. -/
theorem explicit_type_rejection (K : Consts) (steps : List GetoptStep) (hp : Proceeds steps)
    (hn : NulFree steps) (tok : List Nat) (hT : fileTypeToken steps = some tok)
    (h1 : ¬ EqIgnoreCase tok (lit "ihex")) (h2 : ¬ EqIgnoreCase tok (lit "srecord")) :
    ∃ st, parseOptions K steps (initialState K) = .ok st ∧
      (tok ≠ [] →
        (∀ file : List Nat, autoRecognize st.fileType (cstr file) = .ok st.fileType) ∧
        (tok.length ≤ 7 →
          selectDisassembleFile st.fileType =
            .error (.exit [.write .stderr .unknownFileType, .write .stderr .seeHelpFileTypes]
              EXIT_FAILURE)) ∧
        (∀ (canOpen : List Nat → Bool) file rest, 0 ∉ file →
          (∀ a, selectArch K st.arch = .ok a → tok.length ≤ 7 →
            main K canOpen ⟨steps, file :: rest⟩ =
              .exit [.write .stderr .unknownFileType, .write .stderr .seeHelpFileTypes]
                EXIT_FAILURE) ∧
          (∀ o, selectArch K st.arch = .error o →
            main K canOpen ⟨steps, file :: rest⟩ = o))) ∧
      (tok = [] → ∀ file : List Nat, 0 ∉ file →
        (¬ RecognisedExtension file →
          autoRecognize st.fileType (cstr file) =
            .error (.exit [.write .stderr .cannotAutoRecognize,
              .write .stderr .pleaseSpecifyFileType] EXIT_FAILURE) ∧
          ∀ (canOpen : List Nat → Bool) rest,
            main K canOpen ⟨steps, file :: rest⟩ =
              .exit [.write .stderr .cannotAutoRecognize,
                .write .stderr .pleaseSpecifyFileType] EXIT_FAILURE) ∧
        (∀ f, inferType file = some f →
          (∃ ft, autoRecognize st.fileType (cstr file) = .ok ft ∧
            selectDisassembleFile ft = .ok f) ∧
          ∀ (canOpen : List Nat → Bool) rest a, selectArch K st.arch = .ok a →
            main K canOpen ⟨steps, file :: rest⟩ =
              runOutcome canOpen file f (assembleOptions K st) a)) := by
  obtain ⟨st, e, hs, hA, hF⟩ := stages K steps hp hn
  have h0 := lastValue_nulFree hn hT
  have hft := fileType_after_token K steps st tok hT hs
  obtain ⟨he, hk⟩ := selectArch_error_iff hA
  have hm : ∀ (canOpen : List Nat → Bool) file rest, 0 ∉ file →
      main K canOpen ⟨steps, file :: rest⟩ =
        job K canOpen (archToken steps) (some tok) (assembleOptions K st) (file :: rest) := by
    intro canOpen file rest hf
    have := main_eq_job K canOpen steps (file :: rest) hp hn
      (fun f hf' => by simp at hf'; exact hf' ▸ hf) st e
    rw [hT] at this
    exact this
  refine ⟨st, e, ?_, ?_⟩
  · intro hne
    obtain ⟨c, cs, rfl⟩ : ∃ c cs, tok = c :: cs := by
      cases tok with
      | nil => exact absurd rfl hne
      | cons c cs => exact ⟨c, cs, rfl⟩
    have hc : c ≠ 0 := by intro h'; apply h0; simp [h']
    have hx : explicitType (c :: cs) = none := by simp [explicitType, h1, h2]
    refine ⟨?_, ?_, ?_⟩
    · intro file
      rw [hft]
      exact autoRecognize_explicit c cs hc _
    · intro hl
      have hfit : Fits 8 (some (c :: cs)) := by
        show (c :: cs).length < 8
        omega
      rw [hft, selectDisassembleFile_padTo _ h0, hx]
      simp [typeFailure, hfit, ConfigError.outcome]
    · intro canOpen file rest hf
      refine ⟨?_, ?_⟩
      · intro a ha hl
        have hfit : Fits 8 (some (c :: cs)) := by
          show (c :: cs).length < 8
          omega
        rw [hm canOpen file rest hf]
        simp [job, hk a ha, hx, typeFailure, hfit, ConfigError.outcome]
      · intro o ho
        rw [hm canOpen file rest hf]
        simp only [job, (he o ho).1, (he o ho).2]
  · intro hnil file hf
    subst hnil
    have hF := hF file hf
    rw [hT] at hF
    simp only at hF
    refine ⟨?_, ?_⟩
    · intro hnr
      have hi : inferType file = none := by
        by_contra hcon
        exact hnr ((recognised_iff file).2 hcon)
      rw [hi] at hF
      simp only at hF
      refine ⟨hF, ?_⟩
      intro canOpen rest
      rw [hm canOpen file rest hf]
      simp only [job, hi]
      rfl
    · intro f hi
      rw [hi] at hF
      simp only at hF
      refine ⟨hF, ?_⟩
      intro canOpen rest a ha
      rw [hm canOpen file rest hf]
      simp only [job, hi, hk a ha]

/-- Witness for C3 (amended): the token `srecor` is rejected although the extension is
`hex`, and with the empty token `prog.bin` is not recognized. -/
theorem explicit_type_rejection_witness :
    main sampleConsts (fun _ => true) ⟨[.short 116 (lit "srecor")], [lit "prog.hex"]⟩ =
      .exit [.write .stderr .unknownFileType, .write .stderr .seeHelpFileTypes]
        EXIT_FAILURE ∧
    main sampleConsts (fun _ => true) ⟨[.short 116 []], [lit "prog.bin"]⟩ =
      .exit [.write .stderr .cannotAutoRecognize, .write .stderr .pleaseSpecifyFileType]
        EXIT_FAILURE := by
  refine ⟨?_, ?_⟩
  · obtain ⟨st, e, h, _⟩ :=
      explicit_type_rejection sampleConsts [.short 116 (lit "srecor")] (by decide) (by decide)
        (lit "srecor") (by decide) (by decide) (by decide)
    have hst : st.arch = (initialState sampleConsts).arch := by
      have := Except.ok.inj e
      rw [← this]
      rfl
    exact ((h (by decide)).2.2 (fun _ => true) (lit "prog.hex") [] (by decide)).1 1
      (by rw [hst]; rfl) (by decide)
  · obtain ⟨st, e, _, h⟩ :=
      explicit_type_rejection sampleConsts [.short 116 []] (by decide) (by decide)
        [] (by decide) (by decide) (by decide)
    exact ((h rfl (lit "prog.bin") (by decide)).1 (by decide)).2 (fun _ => true) []

/-- C4: an explicit file type takes priority.  If the effective `-t` token equals `ihex`
(resp. `srecord`) ignoring letter case, then for every input filename auto-recognition
leaves the `fileType` buffer as it is, the Intel HEX (resp. S-Record) routine is selected,
and `main`, once the architecture resolves, opens the file and calls that routine; no
run ends with the unrecognized-extension failure. -/
theorem explicit_type_priority (K : Consts) (steps : List GetoptStep) (hp : Proceeds steps)
    (hn : NulFree steps) (tok : List Nat) (hT : fileTypeToken steps = some tok)
    (f : DisassembleFile)
    (hf : (f = .disassembleIHexFile ∧ EqIgnoreCase tok (lit "ihex")) ∨
      (f = .disassembleSRecordFile ∧ EqIgnoreCase tok (lit "srecord"))) :
    ∃ st, parseOptions K steps (initialState K) = .ok st ∧
      (∀ file : List Nat, autoRecognize st.fileType (cstr file) = .ok st.fileType) ∧
      selectDisassembleFile st.fileType = .ok f ∧
      (∀ (canOpen : List Nat → Bool) file rest a, 0 ∉ file → selectArch K st.arch = .ok a →
        main K canOpen ⟨steps, file :: rest⟩ =
          if canOpen file then
            .exit [.fopen file, .disassemble f (assembleOptions K st) a, .fclose] EXIT_SUCCESS
          else .exit [.fopen file, .write .stderr .cannotOpen] EXIT_FAILURE) ∧
      (∀ (canOpen : List Nat → Bool) operands, (∀ p, operands.head? = some p → 0 ∉ p) →
        main K canOpen ⟨steps, operands⟩ ≠
          .exit [.write .stderr .cannotAutoRecognize, .write .stderr .pleaseSpecifyFileType]
            EXIT_FAILURE) := by
  obtain ⟨st, e, hs, hA, _⟩ := stages K steps hp hn
  have h0 := lastValue_nulFree hn hT
  have hft := fileType_after_token K steps st tok hT hs
  have hx : explicitType tok = some f := by
    rcases hf with ⟨rfl, h⟩ | ⟨rfl, h⟩
    · simp [explicitType, h]
    · have n1 : ¬ EqIgnoreCase tok (lit "ihex") := eqIgnoreCase_excl h (by decide)
      simp [explicitType, h, n1]
  obtain ⟨c, cs, rfl⟩ : ∃ c cs, tok = c :: cs := by
    cases tok with
    | nil => rcases hf with ⟨_, h⟩ | ⟨_, h⟩ <;> exact absurd h (by decide)
    | cons c cs => exact ⟨c, cs, rfl⟩
  have hc : c ≠ 0 := by intro h'; apply h0; simp [h']
  obtain ⟨he, hk⟩ := selectArch_error_iff hA
  refine ⟨st, e, ?_, ?_, ?_, ?_⟩
  · intro file
    rw [hft]
    exact autoRecognize_explicit c cs hc _
  · rw [hft, selectDisassembleFile_padTo _ h0, hx]
  · intro canOpen file rest a hfile ha
    have hm := main_eq_job K canOpen steps (file :: rest) hp hn
      (fun p hp' => by simp at hp'; exact hp' ▸ hfile) st e
    rw [hT] at hm
    rw [hm]
    simp only [job, hk a ha, hx, runOutcome, ConfigError.outcome]
  · intro canOpen operands ho
    have hm := main_eq_job K canOpen steps operands hp hn ho st e
    rw [hT] at hm
    rw [hm]
    cases operands with
    | nil => simp [job, ConfigError.outcome]
    | cons file rest =>
      simp only [job, hx]
      cases resolveArch K (archToken steps) with
      | none =>
        simp only [archFailure]
        split_ifs <;> simp [ConfigError.outcome]
      | some a => exact (runOutcome_ne_error canOpen file f _ a).1

/-- Witness for C4: `--arch enhanced -t srecord sample.srec` calls the S-Record routine for the
enhanced mid-range architecture, and `-t SRecord prog.hex` calls the S-Record routine. -/
theorem explicit_type_priority_witness :
    main sampleConsts (fun _ => true)
        ⟨[.long 1 (lit "enhanced"), .short 116 (lit "srecord")], [lit "sample.srec"]⟩ =
      .exit [.fopen (lit "sample.srec"),
        .disassemble .disassembleSRecordFile ⟨14, 3, List.replicate 8 none⟩
          sampleConsts.PIC_MIDRANGE_ENHANCED, .fclose] EXIT_SUCCESS ∧
    main sampleConsts (fun _ => true) ⟨[.short 116 (lit "SRecord")], [lit "prog.hex"]⟩ =
      .exit [.fopen (lit "prog.hex"),
        .disassemble .disassembleSRecordFile ⟨14, 3, List.replicate 8 none⟩
          sampleConsts.PIC_MIDRANGE, .fclose] EXIT_SUCCESS := by
  obtain ⟨st, e, _, _, h, _⟩ :=
    explicit_type_priority sampleConsts [.long 1 (lit "enhanced"), .short 116 (lit "srecord")]
      (by decide) (by decide) (lit "srecord") (by decide) .disassembleSRecordFile
      (Or.inr ⟨rfl, by decide⟩)
  obtain ⟨st2, e2, _, _, h2, _⟩ :=
    explicit_type_priority sampleConsts [.short 116 (lit "SRecord")]
      (by decide) (by decide) (lit "SRecord") (by decide) .disassembleSRecordFile
      (Or.inr ⟨rfl, by decide⟩)
  have hst := Except.ok.inj e
  have hst2 := Except.ok.inj e2
  subst hst hst2
  refine ⟨?_, ?_⟩
  · rw [h (fun _ => true) (lit "sample.srec") [] 2 (by decide) rfl]
    decide
  · rw [h2 (fun _ => true) (lit "prog.hex") [] 1 (by decide) rfl]
    decide

theorem nat_or_eq_zero (a b : Nat) : a ||| b = 0 ↔ a = 0 ∧ b = 0 := by
  constructor
  · intro h
    have hb : ∀ i, a.testBit i = false ∧ b.testBit i = false := by
      intro i
      have := congrArg (fun n => Nat.testBit n i) h
      simpa [Nat.testBit_or] using this
    exact ⟨Nat.eq_of_testBit_eq (fun i => by simp [(hb i).1]),
      Nat.eq_of_testBit_eq (fun i => by simp [(hb i).2])⟩
  · rintro ⟨rfl, rfl⟩; rfl

theorem nat_or_and (a b x : Nat) : (a ||| b) &&& x = (a &&& x) ||| (b &&& x) := by
  apply Nat.eq_of_testBit_eq
  intro i
  simp [Nat.testBit_and, Nat.testBit_or, Bool.and_or_distrib_right]

theorem isSet_or (a b x : Nat) : isSet (a ||| b) x ↔ isSet a x ∨ isSet b x := by
  unfold isSet
  rw [nat_or_and, Ne, nat_or_eq_zero]
  tauto

theorem ite_or_eq (c : Prop) [Decidable c] (o X : Nat) :
    (if c then o ||| X else o) = o ||| (if c then X else 0) := by
  split_ifs <;> simp

theorem ite_or_eq3 (c d : Prop) [Decidable c] [Decidable d] (o X Y Z : Nat) :
    (if c then o ||| X else if d then o ||| Y else o ||| Z) =
      o ||| (if c then X else if d then Y else Z) := by
  split_ifs <;> rfl

theorem isSet_ite (c : Prop) [Decidable c] (X x : Nat) :
    isSet (if c then X else 0) x ↔ c ∧ isSet X x := by
  split_ifs with h <;> simp [h, isSet]

theorem not_isSet_zero (x : Nat) : ¬ isSet 0 x := by simp [isSet]

theorem isSet_self {x : Nat} (h : x ≠ 0) : isSet x x := by simp [isSet, h]

theorem not_isSet_left {x y : Nat} (h : x &&& y = 0) : ¬ isSet x y := by simp [isSet, h]

theorem not_isSet_right {x y : Nat} (h : x &&& y = 0) : ¬ isSet y x := by
  simp [isSet, Nat.and_comm y x, h]

theorem isSet_assembleOptions (K : Consts) (st : State) (x : Nat) :
    isSet (assembleOptions K st).options x ↔
      isSet st.fOptions.options x ∨
      (st.no_addresses = 0 ∧ isSet K.FORMAT_OPTION_ADDRESS x) ∨
      (st.no_destination_comments = 0 ∧ isSet K.FORMAT_OPTION_DESTINATION_ADDRESS_COMMENT x) ∨
      isSet
        (if st.literal_base = K.FORMAT_OPTION_LITERAL_DEC then K.FORMAT_OPTION_LITERAL_DEC
         else if st.literal_base = K.FORMAT_OPTION_LITERAL_BIN then K.FORMAT_OPTION_LITERAL_BIN
         else K.FORMAT_OPTION_LITERAL_HEX) x ∨
      (st.literal_ascii_comment ≠ 0 ∧ isSet K.FORMAT_OPTION_LITERAL_ASCII_COMMENT x) := by
  simp only [assembleOptions, ite_or_eq, ite_or_eq3, isSet_or, isSet_ite]
  tauto

theorem literal_choice (K : Consts) (hK : K.WellFormed) (steps : List GetoptStep)
    (st : State) (hs : Summary K steps (initialState K) st) :
    (if st.literal_base = K.FORMAT_OPTION_LITERAL_DEC then K.FORMAT_OPTION_LITERAL_DEC
      else if st.literal_base = K.FORMAT_OPTION_LITERAL_BIN then K.FORMAT_OPTION_LITERAL_BIN
      else K.FORMAT_OPTION_LITERAL_HEX) =
      ((literalFlags steps).getLast?.getD .Hex).bit K := by
  obtain ⟨_, _, _, _, _, a6, _⟩ := hs
  obtain ⟨hpw, _, _, _, nH, nB, nD, _⟩ := hK
  simp only [List.pairwise_cons, List.mem_cons, List.mem_singleton, forall_eq_or_imp,
    forall_eq] at hpw
  obtain ⟨_, _, _, ⟨hHB, hHD, _⟩, ⟨hBD, _⟩, _⟩ := hpw
  have hBD' : K.FORMAT_OPTION_LITERAL_BIN ≠ K.FORMAT_OPTION_LITERAL_DEC := by
    intro h; rw [h, Nat.and_self] at hBD; exact nD hBD
  have hHD' : K.FORMAT_OPTION_LITERAL_HEX ≠ K.FORMAT_OPTION_LITERAL_DEC := by
    intro h; rw [h, Nat.and_self] at hHD; exact nD hHD
  have hHB' : K.FORMAT_OPTION_LITERAL_HEX ≠ K.FORMAT_OPTION_LITERAL_BIN := by
    intro h; rw [h, Nat.and_self] at hHB; exact nB hHB
  rw [a6]
  cases h : (literalFlags steps).getLast? with
  | none =>
    simp only [initialState, Option.getD_none, LiteralBase.bit]
    rw [if_neg (by exact_mod_cast nD.symm), if_neg (by exact_mod_cast nB.symm)]
  | some b =>
    cases b with
    | Hex =>
      simp only [Option.getD_some, LiteralBase.bit]
      rw [if_neg (by exact_mod_cast hHD'), if_neg (by exact_mod_cast hHB')]
    | Dec => simp [LiteralBase.bit]
    | Bin =>
      simp only [Option.getD_some, LiteralBase.bit]
      rw [if_neg (by exact_mod_cast hBD')]
      simp

theorem wellFormed_isSet (K : Consts) (hK : K.WellFormed) :
    isSet K.FORMAT_OPTION_ADDRESS_LABEL K.FORMAT_OPTION_ADDRESS_LABEL ∧
      ¬ isSet K.FORMAT_OPTION_ADDRESS_LABEL K.FORMAT_OPTION_ADDRESS ∧
      ¬ isSet K.FORMAT_OPTION_ADDRESS_LABEL K.FORMAT_OPTION_DESTINATION_ADDRESS_COMMENT ∧
      ¬ isSet K.FORMAT_OPTION_ADDRESS_LABEL K.FORMAT_OPTION_LITERAL_HEX ∧
      ¬ isSet K.FORMAT_OPTION_ADDRESS_LABEL K.FORMAT_OPTION_LITERAL_BIN ∧
      ¬ isSet K.FORMAT_OPTION_ADDRESS_LABEL K.FORMAT_OPTION_LITERAL_DEC ∧
      ¬ isSet K.FORMAT_OPTION_ADDRESS_LABEL K.FORMAT_OPTION_LITERAL_ASCII_COMMENT ∧
      ¬ isSet K.FORMAT_OPTION_ADDRESS K.FORMAT_OPTION_ADDRESS_LABEL ∧
      isSet K.FORMAT_OPTION_ADDRESS K.FORMAT_OPTION_ADDRESS ∧
      ¬ isSet K.FORMAT_OPTION_ADDRESS K.FORMAT_OPTION_DESTINATION_ADDRESS_COMMENT ∧
      ¬ isSet K.FORMAT_OPTION_ADDRESS K.FORMAT_OPTION_LITERAL_HEX ∧
      ¬ isSet K.FORMAT_OPTION_ADDRESS K.FORMAT_OPTION_LITERAL_BIN ∧
      ¬ isSet K.FORMAT_OPTION_ADDRESS K.FORMAT_OPTION_LITERAL_DEC ∧
      ¬ isSet K.FORMAT_OPTION_ADDRESS K.FORMAT_OPTION_LITERAL_ASCII_COMMENT ∧
      ¬ isSet K.FORMAT_OPTION_DESTINATION_ADDRESS_COMMENT K.FORMAT_OPTION_ADDRESS_LABEL ∧
      ¬ isSet K.FORMAT_OPTION_DESTINATION_ADDRESS_COMMENT K.FORMAT_OPTION_ADDRESS ∧
      isSet K.FORMAT_OPTION_DESTINATION_ADDRESS_COMMENT K.FORMAT_OPTION_DESTINATION_ADDRESS_COMMENT ∧
      ¬ isSet K.FORMAT_OPTION_DESTINATION_ADDRESS_COMMENT K.FORMAT_OPTION_LITERAL_HEX ∧
      ¬ isSet K.FORMAT_OPTION_DESTINATION_ADDRESS_COMMENT K.FORMAT_OPTION_LITERAL_BIN ∧
      ¬ isSet K.FORMAT_OPTION_DESTINATION_ADDRESS_COMMENT K.FORMAT_OPTION_LITERAL_DEC ∧
      ¬ isSet K.FORMAT_OPTION_DESTINATION_ADDRESS_COMMENT K.FORMAT_OPTION_LITERAL_ASCII_COMMENT ∧
      ¬ isSet K.FORMAT_OPTION_LITERAL_HEX K.FORMAT_OPTION_ADDRESS_LABEL ∧
      ¬ isSet K.FORMAT_OPTION_LITERAL_HEX K.FORMAT_OPTION_ADDRESS ∧
      ¬ isSet K.FORMAT_OPTION_LITERAL_HEX K.FORMAT_OPTION_DESTINATION_ADDRESS_COMMENT ∧
      isSet K.FORMAT_OPTION_LITERAL_HEX K.FORMAT_OPTION_LITERAL_HEX ∧
      ¬ isSet K.FORMAT_OPTION_LITERAL_HEX K.FORMAT_OPTION_LITERAL_BIN ∧
      ¬ isSet K.FORMAT_OPTION_LITERAL_HEX K.FORMAT_OPTION_LITERAL_DEC ∧
      ¬ isSet K.FORMAT_OPTION_LITERAL_HEX K.FORMAT_OPTION_LITERAL_ASCII_COMMENT ∧
      ¬ isSet K.FORMAT_OPTION_LITERAL_BIN K.FORMAT_OPTION_ADDRESS_LABEL ∧
      ¬ isSet K.FORMAT_OPTION_LITERAL_BIN K.FORMAT_OPTION_ADDRESS ∧
      ¬ isSet K.FORMAT_OPTION_LITERAL_BIN K.FORMAT_OPTION_DESTINATION_ADDRESS_COMMENT ∧
      ¬ isSet K.FORMAT_OPTION_LITERAL_BIN K.FORMAT_OPTION_LITERAL_HEX ∧
      isSet K.FORMAT_OPTION_LITERAL_BIN K.FORMAT_OPTION_LITERAL_BIN ∧
      ¬ isSet K.FORMAT_OPTION_LITERAL_BIN K.FORMAT_OPTION_LITERAL_DEC ∧
      ¬ isSet K.FORMAT_OPTION_LITERAL_BIN K.FORMAT_OPTION_LITERAL_ASCII_COMMENT ∧
      ¬ isSet K.FORMAT_OPTION_LITERAL_DEC K.FORMAT_OPTION_ADDRESS_LABEL ∧
      ¬ isSet K.FORMAT_OPTION_LITERAL_DEC K.FORMAT_OPTION_ADDRESS ∧
      ¬ isSet K.FORMAT_OPTION_LITERAL_DEC K.FORMAT_OPTION_DESTINATION_ADDRESS_COMMENT ∧
      ¬ isSet K.FORMAT_OPTION_LITERAL_DEC K.FORMAT_OPTION_LITERAL_HEX ∧
      ¬ isSet K.FORMAT_OPTION_LITERAL_DEC K.FORMAT_OPTION_LITERAL_BIN ∧
      isSet K.FORMAT_OPTION_LITERAL_DEC K.FORMAT_OPTION_LITERAL_DEC ∧
      ¬ isSet K.FORMAT_OPTION_LITERAL_DEC K.FORMAT_OPTION_LITERAL_ASCII_COMMENT ∧
      ¬ isSet K.FORMAT_OPTION_LITERAL_ASCII_COMMENT K.FORMAT_OPTION_ADDRESS_LABEL ∧
      ¬ isSet K.FORMAT_OPTION_LITERAL_ASCII_COMMENT K.FORMAT_OPTION_ADDRESS ∧
      ¬ isSet K.FORMAT_OPTION_LITERAL_ASCII_COMMENT K.FORMAT_OPTION_DESTINATION_ADDRESS_COMMENT ∧
      ¬ isSet K.FORMAT_OPTION_LITERAL_ASCII_COMMENT K.FORMAT_OPTION_LITERAL_HEX ∧
      ¬ isSet K.FORMAT_OPTION_LITERAL_ASCII_COMMENT K.FORMAT_OPTION_LITERAL_BIN ∧
      ¬ isSet K.FORMAT_OPTION_LITERAL_ASCII_COMMENT K.FORMAT_OPTION_LITERAL_DEC ∧
      isSet K.FORMAT_OPTION_LITERAL_ASCII_COMMENT K.FORMAT_OPTION_LITERAL_ASCII_COMMENT := by
  obtain ⟨hpw, n0, n1, n2, n3, n4, n5, n6⟩ := hK
  simp only [List.pairwise_cons, List.mem_cons, List.mem_singleton, forall_eq_or_imp,
    forall_eq] at hpw
  obtain ⟨⟨h01, h02, h03, h04, h05, h06, _⟩, ⟨h12, h13, h14, h15, h16, _⟩, ⟨h23, h24, h25, h26, _⟩, ⟨h34, h35, h36, _⟩, ⟨h45, h46, _⟩, ⟨h56, _⟩, _⟩ := hpw
  exact ⟨isSet_self n0, not_isSet_left h01, not_isSet_left h02, not_isSet_left h03,
    not_isSet_left h04, not_isSet_left h05, not_isSet_left h06, not_isSet_right h01,
    isSet_self n1, not_isSet_left h12, not_isSet_left h13, not_isSet_left h14,
    not_isSet_left h15, not_isSet_left h16, not_isSet_right h02, not_isSet_right h12,
    isSet_self n2, not_isSet_left h23, not_isSet_left h24, not_isSet_left h25,
    not_isSet_left h26, not_isSet_right h03, not_isSet_right h13, not_isSet_right h23,
    isSet_self n3, not_isSet_left h34, not_isSet_left h35, not_isSet_left h36,
    not_isSet_right h04, not_isSet_right h14, not_isSet_right h24, not_isSet_right h34,
    isSet_self n4, not_isSet_left h45, not_isSet_left h46, not_isSet_right h05,
    not_isSet_right h15, not_isSet_right h25, not_isSet_right h35, not_isSet_right h45,
    isSet_self n5, not_isSet_left h56, not_isSet_right h06, not_isSet_right h16,
    not_isSet_right h26, not_isSet_right h36, not_isSet_right h46, not_isSet_right h56,
    isSet_self n6⟩

theorem main_disassemble_options (K : Consts) (canOpen : List Nat → Bool)
    (steps : List GetoptStep) (operands : List (List Nat)) (hp : Proceeds steps)
    (hn : NulFree steps) (ho : ∀ f, operands.head? = some f → 0 ∉ f) (st : State)
    (e : parseOptions K steps (initialState K) = .ok st) (evs : List Event) (status : Nat)
    (f : DisassembleFile) (fo : formattingOptions) (a : Int)
    (hm : main K canOpen ⟨steps, operands⟩ = .exit evs status)
    (hmem : Event.disassemble f fo a ∈ evs) : fo = assembleOptions K st := by
  rw [main_eq_job K canOpen steps operands hp hn ho st e] at hm
  exact (job_disassemble K canOpen _ _ _ _ evs status f fo a hm hmem).2.1

/-- C5: construction of the formatting options.  In the options `main` assembles after the
option loop, the address bit is set iff `--no-addresses` was not given, the
destination-comment bit iff `--no-destination-comments` was not given, the literal-ASCII
bit iff `--literal-ascii` was given, the address-label bit iff `-l`/`--address-label` was
given, and `addressFieldWidth` is 3; with no literal-base flag the literal base is
hexadecimal alone.  These options are the ones passed to the disassembly routine. -/
theorem formatting_options (K : Consts) (hK : K.WellFormed) (steps : List GetoptStep)
    (hp : Proceeds steps) (hn : NulFree steps) :
    ∃ st, parseOptions K steps (initialState K) = .ok st ∧
      (isSet (assembleOptions K st).options K.FORMAT_OPTION_ADDRESS ↔
        longGiven 3 steps = false) ∧
      (isSet (assembleOptions K st).options K.FORMAT_OPTION_DESTINATION_ADDRESS_COMMENT ↔
        longGiven 8 steps = false) ∧
      (isSet (assembleOptions K st).options K.FORMAT_OPTION_LITERAL_ASCII_COMMENT ↔
        longGiven 7 steps = true) ∧
      (isSet (assembleOptions K st).options K.FORMAT_OPTION_ADDRESS_LABEL ↔
        (labelToken steps).isSome = true) ∧
      (assembleOptions K st).addressFieldWidth = 3 ∧
      (literalFlags steps = [] →
        isSet (assembleOptions K st).options K.FORMAT_OPTION_LITERAL_HEX ∧
        ¬ isSet (assembleOptions K st).options K.FORMAT_OPTION_LITERAL_DEC ∧
        ¬ isSet (assembleOptions K st).options K.FORMAT_OPTION_LITERAL_BIN) ∧
      (∀ (canOpen : List Nat → Bool) operands, (∀ p, operands.head? = some p → 0 ∉ p) →
        ∀ evs status f fo a, main K canOpen ⟨steps, operands⟩ = .exit evs status →
          Event.disassemble f fo a ∈ evs → fo = assembleOptions K st) := by
  obtain ⟨st, e, _, hs⟩ := parseOptions_ok K steps (initialState K) hp hn (initialState_sized K)
  have hl := literal_choice K hK steps st hs
  have hw := wellFormed_isSet K hK
  obtain ⟨_, _, a3, a4, a5, _, a7, a8, _⟩ := hs
  have hopt : ∀ x, isSet st.fOptions.options x ↔
      ((labelToken steps).isSome = true ∧ isSet K.FORMAT_OPTION_ADDRESS_LABEL x) := by
    intro x
    rw [a7]
    by_cases h : (labelToken steps).isSome = true
    · simp [h, initialState]
    · simp [h, initialState, not_isSet_zero]
  have h3 : st.no_addresses = 0 ↔ longGiven 3 steps = false := by
    rw [a3]; cases longGiven 3 steps <;> simp [initialState]
  have h8 : st.no_destination_comments = 0 ↔ longGiven 8 steps = false := by
    rw [a5]; cases longGiven 8 steps <;> simp [initialState]
  have h7 : st.literal_ascii_comment ≠ 0 ↔ longGiven 7 steps = true := by
    rw [a4]; cases longGiven 7 steps <;> simp [initialState]
  refine ⟨st, e, ?_, ?_, ?_, ?_, ?_, ?_, ?_⟩
  · rw [isSet_assembleOptions, hl, hopt, h3, h8, h7]
    cases (literalFlags steps).getLast?.getD .Hex <;> simp [LiteralBase.bit, hw]
  · rw [isSet_assembleOptions, hl, hopt, h3, h8, h7]
    cases (literalFlags steps).getLast?.getD .Hex <;> simp [LiteralBase.bit, hw]
  · rw [isSet_assembleOptions, hl, hopt, h3, h8, h7]
    cases (literalFlags steps).getLast?.getD .Hex <;> simp [LiteralBase.bit, hw]
  · rw [isSet_assembleOptions, hl, hopt, h3, h8, h7]
    cases (literalFlags steps).getLast?.getD .Hex <;> simp [LiteralBase.bit, hw]
  · simp only [assembleOptions]
    rw [a8]; rfl
  · intro hnil
    simp only [isSet_assembleOptions, hl, hopt, h3, h8, h7, hnil]
    simp [LiteralBase.bit, hw]
  · intro canOpen operands ho evs status f fo a hm hmem
    exact main_disassemble_options K canOpen steps operands hp hn ho st e evs status f fo a
      hm hmem

/-- Witness for C5: `--no-addresses --literal-ascii -l L_ prog.hex`. -/
theorem formatting_options_witness :
    main sampleConsts (fun _ => true)
        ⟨[.long 3 [], .long 7 [], .short 108 (lit "L_")], [lit "prog.hex"]⟩ =
      .exit [.fopen (lit "prog.hex"),
        .disassemble .disassembleIHexFile
          ⟨sampleConsts.FORMAT_OPTION_ADDRESS_LABEL |||
              sampleConsts.FORMAT_OPTION_DESTINATION_ADDRESS_COMMENT |||
              sampleConsts.FORMAT_OPTION_LITERAL_HEX |||
              sampleConsts.FORMAT_OPTION_LITERAL_ASCII_COMMENT, 3,
            padTo (lit "L_") 8⟩ 1, .fclose] EXIT_SUCCESS ∧
    ∃ st, parseOptions sampleConsts [.long 3 [], .long 7 [], .short 108 (lit "L_")]
        (initialState sampleConsts) = .ok st ∧
      ¬ isSet (assembleOptions sampleConsts st).options sampleConsts.FORMAT_OPTION_ADDRESS ∧
      isSet (assembleOptions sampleConsts st).options
        sampleConsts.FORMAT_OPTION_DESTINATION_ADDRESS_COMMENT ∧
      isSet (assembleOptions sampleConsts st).options
        sampleConsts.FORMAT_OPTION_LITERAL_ASCII_COMMENT ∧
      isSet (assembleOptions sampleConsts st).options
        sampleConsts.FORMAT_OPTION_ADDRESS_LABEL := by
  refine ⟨by decide, ?_⟩
  obtain ⟨st, e, h1, h2, h3, h4, _⟩ :=
    formatting_options sampleConsts (by decide)
      [.long 3 [], .long 7 [], .short 108 (lit "L_")] (by decide) (by decide)
  exact ⟨st, e, fun h => absurd (h1.1 h) (by decide), h2.2 (by decide), h3.2 (by decide),
    h4.2 (by decide)⟩

/-- C6: literal-base selection.  For every command line whose option loop is not cut
short, exactly one of the three literal-base bits is set in the assembled options: the bit
of the last `--literal-hex`/`--literal-bin`/`--literal-dec` flag on the command line, and
the hexadecimal bit when there is none.  Repeated or conflicting flags raise no error:
the option loop ends normally. -/
theorem literal_base_selection (K : Consts) (hK : K.WellFormed) (steps : List GetoptStep)
    (hp : Proceeds steps) (hn : NulFree steps) :
    ∃ st, parseOptions K steps (initialState K) = .ok st ∧
      ∀ b : LiteralBase, isSet (assembleOptions K st).options (b.bit K) ↔
        b = (literalFlags steps).getLast?.getD .Hex := by
  obtain ⟨st, e, _, hs⟩ := parseOptions_ok K steps (initialState K) hp hn (initialState_sized K)
  have hl := literal_choice K hK steps st hs
  have hw := wellFormed_isSet K hK
  obtain ⟨_, _, a3, a4, a5, _, a7, a8, _⟩ := hs
  have hopt : ∀ x, isSet st.fOptions.options x ↔
      ((labelToken steps).isSome = true ∧ isSet K.FORMAT_OPTION_ADDRESS_LABEL x) := by
    intro x
    rw [a7]
    by_cases h : (labelToken steps).isSome = true
    · simp [h, initialState]
    · simp [h, initialState, not_isSet_zero]
  refine ⟨st, e, ?_⟩
  intro b
  rw [isSet_assembleOptions, hl, hopt]
  cases (literalFlags steps).getLast?.getD .Hex <;> cases b <;> simp [LiteralBase.bit, hw]

/-- Witness for C6: `--literal-bin --literal-dec` selects decimal alone, and
`--literal-dec --literal-bin` selects binary alone. -/
theorem literal_base_selection_witness :
    (∃ st, parseOptions sampleConsts [.long 4 [], .long 5 []] (initialState sampleConsts)
        = .ok st ∧
      isSet (assembleOptions sampleConsts st).options sampleConsts.FORMAT_OPTION_LITERAL_DEC ∧
      ¬ isSet (assembleOptions sampleConsts st).options
        sampleConsts.FORMAT_OPTION_LITERAL_BIN ∧
      ¬ isSet (assembleOptions sampleConsts st).options
        sampleConsts.FORMAT_OPTION_LITERAL_HEX) ∧
    (∃ st, parseOptions sampleConsts [.long 5 [], .long 4 []] (initialState sampleConsts)
        = .ok st ∧
      isSet (assembleOptions sampleConsts st).options sampleConsts.FORMAT_OPTION_LITERAL_BIN ∧
      ¬ isSet (assembleOptions sampleConsts st).options
        sampleConsts.FORMAT_OPTION_LITERAL_DEC ∧
      ¬ isSet (assembleOptions sampleConsts st).options
        sampleConsts.FORMAT_OPTION_LITERAL_HEX) := by
  obtain ⟨st1, e1, h1⟩ :=
    literal_base_selection sampleConsts (by decide) [.long 4 [], .long 5 []] (by decide)
      (by decide)
  obtain ⟨st2, e2, h2⟩ :=
    literal_base_selection sampleConsts (by decide) [.long 5 [], .long 4 []] (by decide)
      (by decide)
  exact ⟨⟨st1, e1, (h1 .Dec).2 (by decide), fun h => absurd ((h1 .Bin).1 h) (by decide),
      fun h => absurd ((h1 .Hex).1 h) (by decide)⟩,
    ⟨st2, e2, (h2 .Bin).2 (by decide), fun h => absurd ((h2 .Dec).1 h) (by decide),
      fun h => absurd ((h2 .Hex).1 h) (by decide)⟩⟩

theorem step_stop (K : Consts) (s : GetoptStep) (st : State)
    (h : ¬ (s.isHelp = false ∧ s.isVersion = false ∧ s.isRejected = false)) :
    parseOptions K [s] st = .error (.exit [.write .stderr .usage] EXIT_SUCCESS) ∨
      parseOptions K [s] st = .error (.exit [.write .stderr .version] EXIT_SUCCESS) ∨
      parseOptions K [s] st = .error (.exit [.write .stdout .usage] EXIT_SUCCESS) := by
  cases s with
  | invalid => right; right; rfl
  | long j v =>
    by_cases h9 : j = 9
    · subst h9; left; rfl
    by_cases h10 : j = 10
    · subst h10; right; left; rfl
    by_cases h11 : 11 ≤ j
    · right; right
      have : (long_options K)[j]? = none := by
        apply List.getElem?_eq_none
        simpa [long_options] using h11
      simp [parseOptions, getopt_long, this]
    · exfalso
      apply h
      have hj : j = 0 ∨ j = 1 ∨ j = 2 ∨ j = 3 ∨ j = 4 ∨ j = 5 ∨ j = 6 ∨ j = 7 ∨ j = 8 := by
        omega
      rcases hj with rfl | rfl | rfl | rfl | rfl | rfl | rfl | rfl | rfl <;>
        exact ⟨rfl, rfl, rfl⟩
  | short c v =>
    by_cases h1 : c = 104
    · subst h1; left; rfl
    by_cases h2 : c = 118
    · subst h2; right; left; rfl
    by_cases h3 : c ∈ optstring
    · exfalso
      apply h
      simp only [optstring, List.mem_cons, List.mem_singleton, List.not_mem_nil, or_false] at h3
      rcases h3 with rfl | rfl | rfl | rfl | rfl
      · exact ⟨rfl, rfl, rfl⟩
      · exact ⟨rfl, rfl, rfl⟩
      · exact ⟨rfl, rfl, rfl⟩
      · exact absurd rfl h1
      · exact absurd rfl h2
    · right; right
      simp [parseOptions, getopt_long, h3]

theorem parseOptions_total (K : Consts) (steps : List GetoptStep) (st : State)
    (hn : NulFree steps) (hs : Sized K st) :
    Proceeds steps ∨
      parseOptions K steps st = .error (.exit [.write .stderr .usage] EXIT_SUCCESS) ∨
      parseOptions K steps st = .error (.exit [.write .stderr .version] EXIT_SUCCESS) ∨
      parseOptions K steps st = .error (.exit [.write .stdout .usage] EXIT_SUCCESS) := by
  induction steps generalizing st with
  | nil => left; intro s hs'; simp at hs'
  | cons s ss ih =>
    by_cases h : s.isHelp = false ∧ s.isVersion = false ∧ s.isRejected = false
    · obtain ⟨st1, e1, hs1, _⟩ := step_ok K s st h (hn s (List.mem_cons_self _ _)) hs
      rcases ih st1 (fun x hx => hn x (List.mem_cons_of_mem _ hx)) hs1 with hp | he
      · left
        intro x hx
        rcases List.mem_cons.1 hx with rfl | hx
        · exact h
        · exact hp x hx
      · right
        rw [parseOptions_cons, e1]
        exact he
    · right
      rw [parseOptions_cons]
      rcases step_stop K s st h with e | e | e <;> rw [e] <;> simp

theorem main_proceeds_cases (K : Consts) (canOpen : List Nat → Bool)
    (steps : List GetoptStep) (operands : List (List Nat)) (hp : Proceeds steps)
    (hn : NulFree steps) (ho : ∀ f, operands.head? = some f → 0 ∉ f) :
    ∃ st, parseOptions K steps (initialState K) = .ok st ∧
      ((operands = [] ∧ main K canOpen ⟨steps, operands⟩ = ConfigError.NoInputFile.outcome) ∨
       (∃ file rest, operands = file :: rest ∧ NoTypeToken steps ∧
          ¬ RecognisedExtension file ∧
          main K canOpen ⟨steps, operands⟩ = ConfigError.UnrecognizedExtension.outcome) ∨
       (∃ file rest, operands = file :: rest ∧
          (NoTypeToken steps → RecognisedExtension file) ∧ UnknownArch steps ∧
          main K canOpen ⟨steps, operands⟩ = archFailure (archToken steps)) ∨
       (∃ file rest, operands = file :: rest ∧ ¬ NoTypeToken steps ∧ ¬ UnknownArch steps ∧
          UnknownType steps ∧
          main K canOpen ⟨steps, operands⟩ = typeFailure (fileTypeToken steps)) ∨
       (∃ file rest ft a f, operands = file :: rest ∧
          (NoTypeToken steps → RecognisedExtension file) ∧ ¬ UnknownArch steps ∧
          ¬ UnknownType steps ∧
          autoRecognize st.fileType (cstr file) = .ok ft ∧ selectArch K st.arch = .ok a ∧
          selectDisassembleFile ft = .ok f ∧
          main K canOpen ⟨steps, operands⟩ =
            runOutcome canOpen file f (assembleOptions K st) a)) := by
  obtain ⟨st, e, _, hA, hF⟩ := stages K steps hp hn
  have hm := main_eq_job K canOpen steps operands hp hn ho st e
  refine ⟨st, e, ?_⟩
  cases operands with
  | nil => left; exact ⟨rfl, hm⟩
  | cons file rest =>
    right
    have hF := hF file (ho file rfl)
    rw [hm]
    have hUA := unknownArch_iff K steps
    have hUT := unknownType_iff steps
    have hRE := recognised_iff file
    rcases hT : fileTypeToken steps with _ | (_ | ⟨c, cs⟩)
    · -- no `-t` token
      have hNT : NoTypeToken steps := Or.inl hT
      have hnUT : ¬ UnknownType steps := by rw [hUT, hT]; simp
      rw [hT] at hF
      simp only at hF
      cases hI : inferType file with
      | none =>
        left
        exact ⟨file, rest, rfl, hNT, by rw [hRE, hI]; simp, by simp [job, hI]⟩
      | some f =>
        right
        rw [hI] at hF
        obtain ⟨ft, h1, h2⟩ := hF
        have hR : RecognisedExtension file := by rw [hRE, hI]; simp
        cases hr : resolveArch K (archToken steps) with
        | none =>
          left
          exact ⟨file, rest, rfl, fun _ => hR, hUA.2 hr, by simp [job, hI, hr]⟩
        | some a =>
          right; right
          rw [hr] at hA
          exact ⟨file, rest, ft, a, f, rfl, fun _ => hR, by rw [hUA, hr]; simp, hnUT, h1, hA,
            h2, by simp [job, hI, hr]⟩
    · -- the empty `-t` token
      have hNT : NoTypeToken steps := Or.inr hT
      have hnUT : ¬ UnknownType steps := by rw [hUT, hT]; simp
      rw [hT] at hF
      simp only at hF
      cases hI : inferType file with
      | none =>
        left
        exact ⟨file, rest, rfl, hNT, by rw [hRE, hI]; simp, by simp [job, hI]⟩
      | some f =>
        right
        rw [hI] at hF
        obtain ⟨ft, h1, h2⟩ := hF
        have hR : RecognisedExtension file := by rw [hRE, hI]; simp
        cases hr : resolveArch K (archToken steps) with
        | none =>
          left
          exact ⟨file, rest, rfl, fun _ => hR, hUA.2 hr, by simp [job, hI, hr]⟩
        | some a =>
          right; right
          rw [hr] at hA
          exact ⟨file, rest, ft, a, f, rfl, fun _ => hR, by rw [hUA, hr]; simp, hnUT, h1, hA,
            h2, by simp [job, hI, hr]⟩
    · -- a non-empty `-t` token
      have hNT : ¬ NoTypeToken steps := by simp [NoTypeToken, hT]
      rw [hT] at hF
      simp only at hF
      obtain ⟨h1, h2⟩ := hF
      right
      cases hr : resolveArch K (archToken steps) with
      | none =>
        left
        exact ⟨file, rest, rfl, fun h => absurd h hNT, hUA.2 hr, by simp [job, hr]⟩
      | some a =>
        right
        rw [hr] at hA
        have hnUA : ¬ UnknownArch steps := by rw [hUA, hr]; simp
        cases hx : explicitType (c :: cs) with
        | none =>
          left
          exact ⟨file, rest, rfl, hNT, hnUA, hUT.2 ⟨c, cs, hT, hx⟩, by simp [job, hr, hx]⟩
        | some f =>
          right
          rw [hx] at h2
          refine ⟨file, rest, st.fileType, a, f, rfl, fun h => absurd h hNT, hnUA, ?_, h1, hA,
            h2, by simp [job, hr, hx]⟩
          rw [hUT, hT]
          simp [hx]

theorem main_of_error (K : Consts) (canOpen : List Nat → Bool) (steps : List GetoptStep)
    (operands : List (List Nat)) (o : Outcome)
    (e : parseOptions K steps (initialState K) = .error o) :
    main K canOpen ⟨steps, operands⟩ = o := by
  simp only [main, e]

/-- C8 (as stated, refuted): with two operands `a.hex` and `b.hex` the run is accepted:
`main` opens the first operand and calls the disassembly routine. -/
theorem operand_requirement_counterexample :
    main sampleConsts (fun _ => true) ⟨[], [lit "a.hex", lit "b.hex"]⟩ =
      .exit [.fopen (lit "a.hex"),
        .disassemble .disassembleIHexFile ⟨14, 3, List.replicate 8 none⟩ 1, .fclose]
        EXIT_SUCCESS := by
  decide

/-- C8 (amended): the job driver requires an operand.  When the option loop is not cut
short (no help, version or rejected option) and there is no operand, `main` exits with the
no-program-file diagnostics and `EXIT_FAILURE`, calling no disassembly routine; when there
are one or more operands, the first is the input file and the others are ignored: the run
is the same as with the first operand alone. -/
theorem operand_requirement (K : Consts) (canOpen : List Nat → Bool)
    (steps : List GetoptStep) (hp : Proceeds steps) (hn : NulFree steps) :
    main K canOpen ⟨steps, []⟩ =
        .exit [.write .stderr .noProgramFile, .write .stderr .usage] EXIT_FAILURE ∧
      ∀ file rest, main K canOpen ⟨steps, file :: rest⟩ = main K canOpen ⟨steps, [file]⟩ := by
  obtain ⟨st, e, _⟩ := parseOptions_ok K steps (initialState K) hp hn (initialState_sized K)
  refine ⟨?_, ?_⟩
  · simp only [main, e]
  · intro file rest
    simp only [main]

/-- Witness for C8 (amended): no operand is an error; a second operand is ignored. -/
theorem operand_requirement_witness :
    main sampleConsts (fun _ => true) ⟨[.long 5 []], []⟩ =
        .exit [.write .stderr .noProgramFile, .write .stderr .usage] EXIT_FAILURE ∧
      main sampleConsts (fun _ => true) ⟨[.long 5 []], [lit "a.hex", lit "b.srec"]⟩ =
        main sampleConsts (fun _ => true) ⟨[.long 5 []], [lit "a.hex"]⟩ := by
  have h := operand_requirement sampleConsts (fun _ => true) [.long 5 []] (by decide)
    (by decide)
  exact ⟨h.1, h.2 _ _⟩

/-- C9 (the code departs from the claim): when the first call of `getopt_long` rejects an
argument (unknown option or missing option value, return value `'?'`), `main` writes the
usage text to standard output and exits with `EXIT_SUCCESS`, which is 0. -/
theorem rejected_option_outcome (K : Consts) (canOpen : List Nat → Bool)
    (steps : List GetoptStep) (operands : List (List Nat)) :
    main K canOpen ⟨.invalid :: steps, operands⟩ = .exit [.write .stdout .usage] EXIT_SUCCESS ∧
      EXIT_SUCCESS = 0 := by
  refine ⟨?_, rfl⟩
  simp [main, parseOptions, getopt_long]

/-- C10 (the code departs from the claim for unknown tokens that do not fit their
buffer): error precedence.  When the option loop runs to its end, the failure `main`
reports is the first that applies in this order: no operand; an unrecognized or absent
extension (only when no non-empty `-t` token was given); an unknown architecture token;
an unknown file-type token; the input file cannot be opened.  When none applies the run
calls the disassembly routine and exits with `EXIT_SUCCESS`.  The unknown-architecture
and unknown-file-type failures are the diagnostics with `EXIT_FAILURE` when the token fits
its buffer (at most 8 characters for `-a`, 7 for `-t`); when it does not, the diagnostic
reads past the buffer and the behaviour of the run is undefined. -/
theorem error_precedence (K : Consts) (canOpen : List Nat → Bool)
    (steps : List GetoptStep) (operands : List (List Nat)) (hp : Proceeds steps)
    (hn : NulFree steps) (ho : ∀ f, operands.head? = some f → 0 ∉ f) :
    (operands = [] →
      main K canOpen ⟨steps, operands⟩ =
        .exit [.write .stderr .noProgramFile, .write .stderr .usage] EXIT_FAILURE) ∧
    (∀ file rest, operands = file :: rest →
      (NoTypeToken steps → ¬ RecognisedExtension file →
        main K canOpen ⟨steps, operands⟩ =
          .exit [.write .stderr .cannotAutoRecognize, .write .stderr .pleaseSpecifyFileType]
            EXIT_FAILURE) ∧
      ((NoTypeToken steps → RecognisedExtension file) → UnknownArch steps →
        (Fits 9 (archToken steps) →
          main K canOpen ⟨steps, operands⟩ =
            .exit [.write .stderr .unknownArchitecture, .write .stderr .seeHelpArchitectures]
              EXIT_FAILURE) ∧
        (¬ Fits 9 (archToken steps) → main K canOpen ⟨steps, operands⟩ = .undefined)) ∧
      ((NoTypeToken steps → RecognisedExtension file) → ¬ UnknownArch steps →
        UnknownType steps →
        (Fits 8 (fileTypeToken steps) →
          main K canOpen ⟨steps, operands⟩ =
            .exit [.write .stderr .unknownFileType, .write .stderr .seeHelpFileTypes]
              EXIT_FAILURE) ∧
        (¬ Fits 8 (fileTypeToken steps) → main K canOpen ⟨steps, operands⟩ = .undefined)) ∧
      ((NoTypeToken steps → RecognisedExtension file) → ¬ UnknownArch steps →
        ¬ UnknownType steps →
        (canOpen file = false →
          main K canOpen ⟨steps, operands⟩ =
            .exit [.fopen file, .write .stderr .cannotOpen] EXIT_FAILURE) ∧
        (canOpen file = true →
          ∃ f fo a, main K canOpen ⟨steps, operands⟩ =
            .exit [.fopen file, .disassemble f fo a, .fclose] EXIT_SUCCESS))) := by
  obtain ⟨st, e, h⟩ := main_proceeds_cases K canOpen steps operands hp hn ho
  refine ⟨?_, ?_⟩
  · intro hnil
    rcases h with ⟨_, hm⟩ | ⟨file, rest, h0, _⟩ | ⟨file, rest, h0, _⟩ |
      ⟨file, rest, h0, _⟩ | ⟨file, rest, ft, a, f, h0, _⟩
    · exact hm
    all_goals rw [hnil] at h0; exact absurd h0 (by simp)
  · intro file rest hop
    rcases h with ⟨h0, _⟩ | ⟨file1, rest1, h0, h1, h2, hm⟩ | ⟨file1, rest1, h0, h1, h2, hm⟩ |
      ⟨file1, rest1, h0, h1, h2, h3, hm⟩ |
      ⟨file1, rest1, ft, a, f, h0, h1, h2, h3, _, _, _, hm⟩
    · rw [hop] at h0; exact absurd h0 (by simp)
    all_goals
      rw [hop] at h0
      simp only [List.cons.injEq] at h0
      obtain ⟨rfl, rfl⟩ := h0
    · refine ⟨fun _ _ => hm, fun a => absurd (a h1) h2, fun a => absurd (a h1) h2,
        fun a => absurd (a h1) h2⟩
    · refine ⟨fun a b => absurd (h1 a) b, fun _ _ => ⟨?_, ?_⟩, fun _ b => absurd h2 b,
        fun _ b => absurd h2 b⟩
      · intro hfit
        rw [hm, archFailure, if_pos hfit]; rfl
      · intro hfit
        rw [hm, archFailure, if_neg hfit]
    · refine ⟨fun a _ => absurd a h1, fun _ b => absurd b h2, fun _ _ _ => ⟨?_, ?_⟩,
        fun _ _ c => absurd h3 c⟩
      · intro hfit
        rw [hm, typeFailure, if_pos hfit]; rfl
      · intro hfit
        rw [hm, typeFailure, if_neg hfit]
    · refine ⟨fun a b => absurd (h1 a) b, fun _ b => absurd b h2, fun _ _ c => absurd c h3,
        fun _ _ _ => ⟨?_, ?_⟩⟩
      · intro hc
        rw [hm]; simp [runOutcome, hc, ConfigError.outcome]
      · intro hc
        exact ⟨f, assembleOptions K st, a, by rw [hm]; simp [runOutcome, hc]⟩

/-- Witness for C10: one run for each of the five failures, in the order of precedence,
and a run with the unknown architecture token `pic18f4550` (10 characters), whose
behaviour is undefined. -/
theorem error_precedence_witness :
    main sampleConsts (fun _ => true)
        ⟨[.short 97 (lit "pic18"), .short 116 (lit "elf")], []⟩ =
      .exit [.write .stderr .noProgramFile, .write .stderr .usage] EXIT_FAILURE ∧
    main sampleConsts (fun _ => true) ⟨[.short 97 (lit "pic18")], [lit "prog.bin"]⟩ =
      .exit [.write .stderr .cannotAutoRecognize, .write .stderr .pleaseSpecifyFileType]
        EXIT_FAILURE ∧
    main sampleConsts (fun _ => true)
        ⟨[.short 97 (lit "pic18"), .short 116 (lit "elf")], [lit "prog.bin"]⟩ =
      .exit [.write .stderr .unknownArchitecture, .write .stderr .seeHelpArchitectures]
        EXIT_FAILURE ∧
    main sampleConsts (fun _ => true) ⟨[.short 116 (lit "elf")], [lit "prog.hex"]⟩ =
      .exit [.write .stderr .unknownFileType, .write .stderr .seeHelpFileTypes]
        EXIT_FAILURE ∧
    main sampleConsts (fun _ => false) ⟨[], [lit "prog.hex"]⟩ =
      .exit [.fopen (lit "prog.hex"), .write .stderr .cannotOpen] EXIT_FAILURE ∧
    main sampleConsts (fun _ => true)
        ⟨[.short 97 (lit "pic18f4550"), .short 116 (lit "elf")], [lit "prog.hex"]⟩ =
      .undefined := by
  refine ⟨?_, ?_, ?_, ?_, ?_, ?_⟩
  · exact (error_precedence sampleConsts (fun _ => true)
      [.short 97 (lit "pic18"), .short 116 (lit "elf")] [] (by decide) (by decide)
      (by decide)).1 rfl
  · exact ((error_precedence sampleConsts (fun _ => true)
      [.short 97 (lit "pic18")] [lit "prog.bin"] (by decide) (by decide)
      (by decide)).2 _ _ rfl).1 (by decide) (by decide)
  · exact (((error_precedence sampleConsts (fun _ => true)
      [.short 97 (lit "pic18"), .short 116 (lit "elf")] [lit "prog.bin"] (by decide)
      (by decide) (by decide)).2 _ _ rfl).2.1 (by decide) (by decide)).1 (by decide)
  · exact (((error_precedence sampleConsts (fun _ => true)
      [.short 116 (lit "elf")] [lit "prog.hex"] (by decide) (by decide)
      (by decide)).2 _ _ rfl).2.2.1 (by decide) (by decide) (by decide)).1 (by decide)
  · exact (((error_precedence sampleConsts (fun _ => false)
      [] [lit "prog.hex"] (by decide) (by decide)
      (by decide)).2 _ _ rfl).2.2.2 (by decide) (by decide) (by decide)).1 rfl
  · exact (((error_precedence sampleConsts (fun _ => true)
      [.short 97 (lit "pic18f4550"), .short 116 (lit "elf")] [lit "prog.hex"] (by decide)
      (by decide) (by decide)).2 _ _ rfl).2.1 (by decide) (by decide)).2 (by decide)

end VPicDisasm
